import Mathlib

/-!
Verification of the `capa.render.proto` schema-to-protobuf translator
(`src/capa/render/proto/__init__.py`).

The translator walks a pydantic-produced JSON schema (nested `dict`s) and
emits protobuf v3 text.  We embed the JSON values the code inspects as an
inductive `JVal` whose optional fields mirror exactly the dictionary keys the
Python code reads: `type`, `$ref`, `title`, `items`, `maxItems`, `minItems`,
`additionalProperties`, `anyOf`, `enum`, `properties`.  A JSON `items` entry
is either absent, a single schema (`dict`) or a list of schemas, captured by
the mutually inductive `JItems` (with `JList` for schema lists, so that the
recursive type-name resolution is structurally recursive).

Python dictionaries are embedded as association lists; dictionary-key
uniqueness, where the Python semantics relies on it, appears as `Nodup`
hypotheses on theorems.  Python exceptions (KeyError / AssertionError /
ValueError / NotImplementedError) all abort the generation run, and are
embedded as `Except String`.
-/

namespace CapaProto

mutual

inductive JVal : Type where
  | mk (type? : Option String)
       (ref? : Option String)
       (title? : Option String)
       (items? : JItems)
       (maxItems? : Option Nat)
       (minItems? : Option Nat)
       (addProps? : Option JVal)
       (anyOf? : Option (List JVal))
       (enum? : Option (List String))
       (props? : Option (List (String × JVal))) : JVal

/-- The `items` entry of a schema dict: absent, a single schema (`dict`), or
a list of schemas. -/
inductive JItems : Type where
  | none
  | dict (v : JVal)
  | list (vs : JList)

/-- A JSON list of schemas (a dedicated type so that the type-name resolution
below is structurally recursive). -/
inductive JList : Type where
  | jnil
  | jcons (hd : JVal) (tl : JList)

end

/-- Build a `JList` from a `List` of schemas. -/
def jlist : List JVal → JList
  | [] => .jnil
  | x :: xs => .jcons x (jlist xs)

namespace JVal

def type? : JVal → Option String
  | .mk t _ _ _ _ _ _ _ _ _ => t

def ref? : JVal → Option String
  | .mk _ r _ _ _ _ _ _ _ _ => r

def title? : JVal → Option String
  | .mk _ _ ti _ _ _ _ _ _ _ => ti

def items? : JVal → JItems
  | .mk _ _ _ it _ _ _ _ _ _ => it

def maxItems? : JVal → Option Nat
  | .mk _ _ _ _ mx _ _ _ _ _ => mx

def minItems? : JVal → Option Nat
  | .mk _ _ _ _ _ mn _ _ _ _ => mn

def addProps? : JVal → Option JVal
  | .mk _ _ _ _ _ _ ap _ _ _ => ap

def anyOf? : JVal → Option (List JVal)
  | .mk _ _ _ _ _ _ _ ao _ _ => ao

def enum? : JVal → Option (List String)
  | .mk _ _ _ _ _ _ _ _ e _ => e

def props? : JVal → Option (List (String × JVal))
  | .mk _ _ _ _ _ _ _ _ _ p => p

end JVal

/-- Python `d[k]` on an embedded dictionary value: a missing key raises
`KeyError`, which aborts the run. -/
def orKeyError (o : Option α) (k : String) : Except String α :=
  match o with
  | some a => .ok a
  | none => .error ("KeyError: " ++ k)

/-- Python `str.startswith`: Python strings are sequences of code points, so
the test is a prefix test on the code-point list (`String.data`). -/
def pyStartsWith (s pre : String) : Bool :=
  pre.data.isPrefixOf s.data

/-- Python `str.replace(old, new)` for one-character `old` and `new` (the
only form the source uses): per-code-point substitution. -/
def pyReplaceChar (s : String) (old new : Char) : String :=
  ⟨s.data.map (fun c => if c = old then new else c)⟩

/-- Python `str.upper()`; the source only uppercases ASCII identifiers and
enum values, where Python's Unicode `upper` agrees with `Char.toUpper`. -/
def pyUpper (s : String) : String :=
  ⟨s.data.map Char.toUpper⟩

/-- Python string comparison (used by `sorted`): lexicographic on the
code-point sequences. -/
def pyCharListLe : List Char → List Char → Bool
  | [], _ => true
  | _ :: _, [] => false
  | a :: as, b :: bs =>
    if a.toNat < b.toNat then true
    else if b.toNat < a.toNat then false
    else pyCharListLe as bs

/-- Python `s1 <= s2` on strings. -/
def pyStrLe (a b : String) : Bool :=
  pyCharListLe a.data b.data

/-- `is_ref(prop)`: `"$ref" in prop`. -/
def is_ref (p : JVal) : Bool :=
  p.ref?.isSome

/-- `get_ref_type_name(prop)`: asserts the pointer starts with
`#/definitions/` and strips that prefix.  A failing `assert` aborts the run. -/
def get_ref_type_name (p : JVal) : Except String String :=
  match p.ref? with
  | none => .error "AssertionError: is_ref"
  | some r =>
    if pyStartsWith r "#/definitions/" then
      .ok (r.drop ("#/definitions/".length))
    else
      .error "AssertionError: ref prefix"

/-- `is_primitive_type(prop)`: `"type" in prop and not prop["type"] == "object"`. -/
def is_primitive_type (p : JVal) : Bool :=
  match p.type? with
  | some t => !(t == "object")
  | none => false

/-- `is_custom_type(prop)`: `"type" in prop and prop["type"] == "object" and
"additionalProperties" not in prop`. -/
def is_custom_type (p : JVal) : Bool :=
  match p.type? with
  | some t => t == "object" && p.addProps?.isNone
  | none => false

/-- `get_custom_type_name(prop)`: `prop["title"]`. -/
def get_custom_type_name (p : JVal) : Except String String :=
  orKeyError p.title? "title"

/-- `is_tuple(prop)`: an array with `maxItems == minItems` (both present). -/
def is_tuple (p : JVal) : Bool :=
  match p.type? with
  | none => false
  | some t =>
    if t != "array" then false
    else
      match p.maxItems?, p.minItems? with
      | some mx, some mn => mx == mn
      | _, _ => false

/-- `is_array(prop)`: an array that is not fixed-size and whose `items` entry
is a single schema (`isinstance(prop["items"], dict)`).
(The Python code would raise `KeyError` on an `array`-typed property with no
`items` key; no claim exercises that corner and we return `false` there.) -/
def is_array (p : JVal) : Bool :=
  match p.type? with
  | none => false
  | some t =>
    if t != "array" then false
    else if (match p.maxItems?, p.minItems? with
             | some mx, some mn => mx == mn
             | _, _ => false) then false
    else
      match p.items? with
      | .dict _ => true
      | _ => false

/-- `is_map(prop)`: `"type" in prop and prop["type"] == "object" and
"additionalProperties" in prop`. -/
def is_map (p : JVal) : Bool :=
  match p.type? with
  | some t => t == "object" && p.addProps?.isSome
  | none => false

/-- `is_union(prop)`: `"anyOf" in prop`. -/
def is_union (p : JVal) : Bool :=
  p.anyOf?.isSome

/-- `sanitize_prop_name(name)`: the chained `str.replace` calls. -/
def sanitize_prop_name (name : String) : String :=
  pyReplaceChar (pyReplaceChar (pyReplaceChar (pyReplaceChar name '-' '_') '&' 'a') '/' '_') ' ' '_'

/-- The `Pair`/`Tuple` base-name selection of `get_tuple_type_name`
(`"Pair" if prop["maxItems"] == 2 else "Tuple"`). -/
def tuple_base : Option Nat → String
  | some 2 => "Pair"
  | _ => "Tuple"

mutual

/-- `get_primitive_type_name(prop)`: scalar names, then tuples, then arrays
(whose item is resolved as primitive / ref / custom, in that order), else
`NotImplementedError`.  So that the recursion is structural (over the mutual
`JVal`/`JItems`/`JList` family), the tuple branch inlines the body of
`get_tuple_type_name` — whose `is_tuple` assert holds in that branch — as
`tuple_type_name_of_items`, the array branch inlines its item dispatch as
`array_item_type_name`, and the recursion over the tuple elements goes
through `get_type_names`; the stand-alone `get_tuple_type_name` and
`get_type_name`, in the source's own shape, are defined right after this
block as non-recursive wrappers.  A property with no `type` key (the first
pattern) fails the function's `is_primitive_type` assert. -/
def get_primitive_type_name : JVal → Except String String
  | .mk Option.none _ _ _ _ _ _ _ _ _ =>
    .error "AssertionError: is_primitive_type"
  | p@(.mk (some t) _ _ items mx _ _ _ _ _) =>
    if !is_primitive_type p then .error "AssertionError: is_primitive_type"
    else if t == "string" then .ok "string"
    else if t == "boolean" then .ok "bool"
    else if t == "integer" then .ok "Integer"
    else if t == "number" then .ok "Number"
    else if is_tuple p then
      tuple_type_name_of_items (tuple_base mx) items
    else if is_array p then
      array_item_type_name items
    else .error ("NotImplementedError: " ++ t)

/-- The base-plus-joined-element-names computation of `get_tuple_type_name`
(its `is_tuple` assert already holds at every call site).  On a tuple whose
`items` entry is not a list the Python code ends up indexing into a string
or raising; every such path aborts the run, embedded as an error. -/
def tuple_type_name_of_items (base : String) : JItems → Except String String
  | .list its => do
      let names ← get_type_names its
      .ok (base ++ "_" ++ String.intercalate "_" names)
  | _ => .error "TypeError: tuple items"

/-- The array branch of `get_primitive_type_name`: resolve
`aitem = prop["items"]` as primitive / ref / custom, in that order, else
`NotImplementedError`; `is_array` already holds at every call site, so the
non-`dict` patterns are unreachable. -/
def array_item_type_name : JItems → Except String String
  | .dict aitem =>
    if is_primitive_type aitem then do
      let atype ← get_primitive_type_name aitem
      .ok ("repeated " ++ atype)
    else if is_ref aitem then do
      let atype ← get_ref_type_name aitem
      .ok ("repeated " ++ atype)
    else if is_custom_type aitem then do
      let atype ← get_custom_type_name aitem
      .ok ("repeated " ++ atype)
    else .error "NotImplementedError: array item"
  | _ => .error "AssertionError: is_array"

/-- `get_type_name` mapped over a list of schemas (the generator expression in
`get_tuple_type_name`); the per-element dispatch inlines `get_type_name`'s
if-chain (primitive, then custom, then ref, else `NotImplementedError`) so
that the recursion is structural. -/
def get_type_names : JList → Except String (List String)
  | .jnil => .ok []
  | .jcons x xs => do
      let n ←
        if is_primitive_type x then get_primitive_type_name x
        else if is_custom_type x then get_custom_type_name x
        else if is_ref x then get_ref_type_name x
        else .error "NotImplementedError: get_type_name"
      let ns ← get_type_names xs
      .ok (n :: ns)

end

/-- `get_type_name(prop)`: dispatch on the classification, in the source's
branch order (primitive, then custom, then ref, else `NotImplementedError`). -/
def get_type_name (p : JVal) : Except String String :=
  if is_primitive_type p then get_primitive_type_name p
  else if is_custom_type p then get_custom_type_name p
  else if is_ref p then get_ref_type_name p
  else .error "NotImplementedError: get_type_name"

/-- `get_tuple_type_name(prop)`: `Pair`/`Tuple` base by `maxItems`, then the
element type names joined with `_`.  (On a tuple whose `items` entry is not a
list the Python code ends up indexing into a string or raising; every such
path aborts the run, embedded as an error.) -/
def get_tuple_type_name (p : JVal) : Except String String :=
  if !is_tuple p then .error "AssertionError: is_tuple"
  else
    let base := match p.maxItems? with
                | some 2 => "Pair"
                | _ => "Tuple"
    match p.items? with
    | .list its => do
        let names ← get_type_names its
        .ok (base ++ "_" ++ String.intercalate "_" names)
    | _ => .error "TypeError: tuple items"

/-- Modelled from the spec: `_find_capa_class` resolves the definition title
to a live class in one of three fixed modules and `_enum_properties` then
reads that class's constructor-parameter order.  Those modules are not part
of the translated sources, so the reflective lookup is abstracted as the
spec's "canonical property-order table" (spec §4.2): a map from definition
title to the ordered field names, `none` when the title is found in no
module, in which case the source raises `NotImplementedError(name)`. -/
def find_capa_class (table : String → Option (List String)) (name : String) :
    Except String (List String) :=
  match table name with
  | some order => .ok order
  | none => .error ("NotImplementedError: " ++ name)

/-- `get_property_index` inside `_enum_properties`: the canonical index of the
sanitized name when present (`list.index`, via try/except), otherwise the raw
schema position offset by the property count. -/
def get_property_index (property_order : List String) (numProps : Nat)
    (names : List String) (name : String) : Nat :=
  if sanitize_prop_name name ∈ property_order then
    property_order.findIdx (· == sanitize_prop_name name)
  else
    numProps + names.findIdx (· == name)

/-- `_enum_properties(message)`: sort the property items by
`get_property_index`.  Python's `sorted` is stable; `List.insertionSort` with
a `≤` key comparison computes the same (unique) stable sort. -/
def enum_properties (table : String → Option (List String)) (message : JVal) :
    Except String (List (String × JVal)) := do
  let title ← orKeyError message.title? "title"
  let property_order ← find_capa_class table title
  let props ← orKeyError message.props? "properties"
  let names := props.map Prod.fst
  .ok (props.insertionSort (fun p q =>
      get_property_index property_order props.length names p.1 ≤
      get_property_index property_order props.length names q.1))

/-- `DeferredArrayType` / `DeferredTupleType`. -/
inductive DeferredType : Type where
  | array (name : String) (item : JVal)
  | tuple (name : String) (count : Nat) (items : JList)

/-- The `deferred_types: Dict[str, ...]` side table. -/
abbrev Deferred := List (String × DeferredType)

/-- Python dict assignment `d[k] = v`: overwrite in place when the key is
present, otherwise append (insertion order preserved). -/
def dictInsert (k : String) (v : α) : List (String × α) → List (String × α)
  | [] => [(k, v)]
  | (k', v') :: rest =>
    if k' == k then (k, v) :: rest else (k', v') :: dictInsert k v rest

/-- Python dict lookup `d[k]` (keys of a real dict are unique, so the first
binding is the binding). -/
def dictGet (k : String) : List (String × α) → Option α
  | [] => none
  | (k', v') :: rest => if k' == k then some v' else dictGet k rest

/-- `render_value` inside `emit_proto_enum`:
`"%s_%s" % (prefix, value.upper().replace(" ", "_"))`. -/
def render_value (pfx value : String) : String :=
  pfx ++ "_" ++ pyReplaceChar (pyUpper value) ' ' '_'

/-- The `for i, value in enumerate(enum["enum"])` loop of `emit_proto_enum`,
with `n` the number given to the next declared value (`i + 1`). -/
def enumValueLines (pfx : String) (n : Nat) : List String → List String
  | [] => []
  | v :: vs =>
    ("  " ++ render_value pfx v ++ " = " ++ toString n ++ ";")
      :: enumValueLines pfx (n + 1) vs

/-- `emit_proto_enum(out, enum)` as the list of lines it writes. -/
def emit_proto_enum (enum : JVal) : Except String (List String) := do
  let title ← orKeyError enum.title? "title"
  let pfx := pyUpper title
  let values ← orKeyError enum.enum? "enum"
  .ok (("enum " ++ title ++ " \x7b")
       :: ("  " ++ render_value pfx "unspecified" ++ " = 0;")
       :: enumValueLines pfx 1 values
       ++ ["\x7d", ""])

/-- The `prop["items"]` access when a `DeferredTupleType` is registered.  (On
a tuple whose `items` is a single dict the source has already aborted inside
`get_tuple_type_name` before any registration, so only the list case is
reachable here.) -/
def tupleItemsOf (p : JVal) : Except String JList :=
  match p.items? with
  | .list its => .ok its
  | .dict _ => .error "TypeError: tuple items"
  | .none => .error "KeyError: items"

/-- The `for j, of in enumerate(prop["anyOf"])` loop of `emit_proto_message`.
`c` is the value currently held by `i` (already drawn from the shared
counter); after emitting each alternative the loop draws a fresh value.
Returns the alternative lines, the updated deferred dict, and the final value
held by `i` (drawn but not yet used by anything). -/
def emit_union_alts (j c : Nat) (deferred : Deferred) :
    List JVal → Except String (List String × Deferred × Nat)
  | [] => .ok ([], deferred, c)
  | of :: rest =>
    if is_ref of then do
      let ptype ← get_ref_type_name of
      let (ls, d', fin) ← emit_union_alts (j + 1) (c + 1) deferred rest
      .ok (("    " ++ ptype ++ " v" ++ toString j ++ " = " ++ toString c ++ ";") :: ls,
           d', fin)
    else if is_primitive_type of then do
      let ptype ← get_primitive_type_name of
      let deferred1 ←
        if is_tuple of then do
          let mn ← orKeyError of.minItems? "minItems"
          let its ← tupleItemsOf of
          pure (dictInsert ptype (DeferredType.tuple ptype mn its) deferred)
        else pure deferred
      let (ls, d', fin) ← emit_union_alts (j + 1) (c + 1) deferred1 rest
      .ok (("    " ++ ptype ++ " v" ++ toString j ++ " = " ++ toString c ++ ";") :: ls,
           d', fin)
    else .error "NotImplementedError: union alternative"

/-- The `for raw_name, prop in _enum_properties(message)` loop of
`emit_proto_message`.  `n` is the next value the shared `counter` iterator
will yield (the counter starts at 1 and, for schemas of any realistic size,
never reaches `sys.maxsize`).  Returns the body lines, the updated deferred
dict, and the final counter state. -/
def emit_prop_lines (n : Nat) (deferred : Deferred) :
    List (String × JVal) → Except String (List String × Deferred × Nat)
  | [] => .ok ([], deferred, n)
  | (raw_name, prop) :: rest => do
    let i := n
    let name := sanitize_prop_name raw_name
    if is_ref prop then do
      let ptype ← get_ref_type_name prop
      let (ls, d', fin) ← emit_prop_lines (i + 1) deferred rest
      .ok (("  " ++ ptype ++ " " ++ name ++ " = " ++ toString i ++ ";") :: ls, d', fin)
    else if is_primitive_type prop then do
      let ptype ← get_primitive_type_name prop
      let deferred1 ←
        if is_tuple prop then do
          let mn ← orKeyError prop.minItems? "minItems"
          let its ← tupleItemsOf prop
          pure (dictInsert ptype (DeferredType.tuple ptype mn its) deferred)
        else
          match prop.items? with
          | .dict aitem =>
            if is_array prop && is_tuple aitem then do
              let atype ← get_tuple_type_name aitem
              let mn ← orKeyError aitem.minItems? "minItems"
              let its ← tupleItemsOf aitem
              pure (dictInsert atype (DeferredType.tuple atype mn its) deferred)
            else pure deferred
          | _ => pure deferred
      let (ls, d', fin) ← emit_prop_lines (i + 1) deferred1 rest
      .ok (("  " ++ ptype ++ " " ++ name ++ " = " ++ toString i ++ ";") :: ls, d', fin)
    else if is_custom_type prop then do
      let ptype ← get_custom_type_name prop
      let (ls, d', fin) ← emit_prop_lines (i + 1) deferred rest
      .ok (("  " ++ ptype ++ " " ++ name ++ " = " ++ toString i ++ ";") :: ls, d', fin)
    else if is_union prop then do
      let alts ← orKeyError prop.anyOf? "anyOf"
      let (altLs, d1, fin) ← emit_union_alts 0 i deferred alts
      let (ls, d', fin') ← emit_prop_lines (fin + 1) d1 rest
      .ok ((("  oneof " ++ name ++ " \x7b") :: altLs ++ ["  \x7d;"]) ++ ls, d', fin')
    else if is_map prop then do
      let ap ← orKeyError prop.addProps? "additionalProperties"
      let (vtype, deferred1) ←
        if is_array ap then
          match ap.items? with
          | .dict item_def => do
            let tn ← get_type_name item_def
            let vt := "Array_" ++ tn
            pure (vt, dictInsert vt (DeferredType.array vt item_def) deferred)
          | _ => .error "KeyError: items"
        else do
          let tn ← get_type_name ap
          pure (tn, deferred)
      let (ls, d', fin) ← emit_prop_lines (i + 1) deferred1 rest
      .ok (("  map <string, " ++ vtype ++ "> " ++ name ++ " = " ++ toString i ++ ";") :: ls,
           d', fin)
    else .error "ValueError: unexpected type"

/-- `emit_proto_message(out, deferred_types, message)` as the lines it writes
plus the updated deferred dict. -/
def emit_proto_message (table : String → Option (List String)) (deferred : Deferred)
    (message : JVal) : Except String (List String × Deferred) := do
  let title ← orKeyError message.title? "title"
  let ordered ← enum_properties table message
  let (body, d', _) ← emit_prop_lines 1 deferred ordered
  .ok (("message " ++ title ++ " \x7b") :: body ++ ["\x7d", ""], d')

/-- `emit_proto_entry(out, deferred_types, schema, name)`. -/
def emit_proto_entry (table : String → Option (List String)) (deferred : Deferred)
    (defs : List (String × JVal)) (name : String) :
    Except String (List String × Deferred) :=
  if !(pyStartsWith name "#/definitions/") then
    .error ("ValueError: unexpected name: " ++ name)
  else do
    let title := name.drop ("#/definitions/".length)
    let definition ← orKeyError (dictGet title defs) title
    let dtitle ← orKeyError definition.title? "title"
    if dtitle != title then .error ("ValueError: title mismatch: " ++ dtitle)
    else do
      let dtype ← orKeyError definition.type? "type"
      if dtype == "string" && definition.enum?.isSome then do
        let ls ← emit_proto_enum definition
        .ok (ls, deferred)
      else if dtype == "object" then
        emit_proto_message table deferred definition
      else .error ("NotImplementedError: " ++ dtype)

/-- The `for name in sorted(schema["definitions"].keys())` loop of
`generate_proto_from_pydantic`. -/
def emit_entries (table : String → Option (List String)) (deferred : Deferred)
    (defs : List (String × JVal)) : List String → Except String (List String × Deferred)
  | [] => .ok ([], deferred)
  | k :: ks => do
    let (ls, d1) ← emit_proto_entry table deferred defs ("#/definitions/" ++ k)
    let (rest, d2) ← emit_entries table d1 defs ks
    .ok (ls ++ rest, d2)

/-- The `for i, item in enumerate(deferred_type.items)` loop of the
`DeferredTupleType` drain. -/
def tuple_item_lines (i : Nat) : JList → Except String (List String)
  | .jnil => .ok []
  | .jcons item rest => do
    let vtype ← get_type_name item
    let ls ← tuple_item_lines (i + 1) rest
    .ok (("  " ++ vtype ++ " v" ++ toString i ++ " = " ++ toString (i + 1) ++ ";") :: ls)

/-- The `for name, deferred_type in sorted(deferred_types.items())` drain loop
of `generate_proto_from_pydantic` (the sort is applied separately, see
`sortDeferred`). -/
def emit_deferred_lines : Deferred → Except String (List String)
  | [] => .ok []
  | (name, .array _ item) :: rest => do
    let vtype ← get_type_name item
    let ls ← emit_deferred_lines rest
    .ok (("message " ++ name ++ " \x7b repeated " ++ vtype ++ " values = 1; \x7d\n") :: ls)
  | (name, .tuple _ _ items) :: rest => do
    let itemLs ← tuple_item_lines 0 items
    let ls ← emit_deferred_lines rest
    .ok ((("message " ++ name ++ " \x7b") :: itemLs ++ ["\x7d\n"]) ++ ls)

/-- `sorted(deferred_types.items())`: dict keys are unique, so sorting the
`(name, value)` tuples orders by name. -/
def sortDeferred (d : Deferred) : Deferred :=
  d.insertionSort (fun a b => pyStrLe a.1 b.1 = true)

/-- `sorted(schema["definitions"].keys())`. -/
def sortedKeys (defs : List (String × JVal)) : List String :=
  (defs.map Prod.fst).insertionSort (fun a b : String => pyStrLe a b = true)

/-- The fixed header written before any definition. -/
def headerLines : List String :=
  ["// Generated by the capa.render.proto translator. DO NOT EDIT!",
   "syntax = \"proto3\";", ""]

/-- The two fixed helper types written after the drained deferred types. -/
def helperLines : List String :=
  ["message Integer \x7b oneof value \x7b uint64 u = 1; int64 i = 2; \x7d \x7d\n",
   "message Number \x7b oneof value \x7b uint64 u = 1; int64 i = 2; double f = 3; \x7d \x7d\n"]

/-- `generate_proto_from_pydantic(schema)` at line granularity.  The input is
the `schema["definitions"]` dict. -/
def generate_proto_lines (table : String → Option (List String))
    (defs : List (String × JVal)) : Except String (List String) := do
  let (body, deferred) ← emit_entries table [] defs (sortedKeys defs)
  let dls ← emit_deferred_lines (sortDeferred deferred)
  .ok (headerLines ++ body ++ dls ++ helperLines)

/-- `generate_proto_from_pydantic(schema)` as the returned document text.
`StringIO.writeln` (defined in `capa.render.utils`, outside the translated
sources; per the spec the driver "accumulates all text into one output
document") writes its argument followed by a newline, so the document is the
emitted lines each terminated by a newline. -/
def generate_proto_from_pydantic (table : String → Option (List String))
    (defs : List (String × JVal)) : Except String String := do
  let ls ← generate_proto_lines table defs
  .ok (String.join (ls.map (· ++ "\n")))

/-! Schema-value constructors, mirroring the dict shapes the pydantic schema
export produces (used to build the concrete inputs of the closed statements
below). -/

/-- `{"type": "string"}`. -/
def jStr : JVal := .mk (some "string") none none .none none none none none none none

/-- `{"type": "boolean"}`. -/
def jBool : JVal := .mk (some "boolean") none none .none none none none none none none

/-- `{"$ref": "#/definitions/<t>"}`. -/
def jRef (t : String) : JVal :=
  .mk none (some ("#/definitions/" ++ t)) none .none none none none none none none

/-- `{"type": "array", "items": <item>}`. -/
def jArrayOf (item : JVal) : JVal :=
  .mk (some "array") none none (.dict item) none none none none none none

/-- `{"type": "array", "items": [...], "maxItems": k, "minItems": k}`. -/
def jTupleOf (items : List JVal) (k : Nat) : JVal :=
  .mk (some "array") none none (.list (jlist items)) (some k) (some k) none none none none

/-- `{"anyOf": [...]}`. -/
def jUnion (alts : List JVal) : JVal :=
  .mk none none none .none none none none (some alts) none none

/-- `{"type": "object", "additionalProperties": <v>}` (a map). -/
def jMapOf (v : JVal) : JVal :=
  .mk (some "object") none none .none none none (some v) none none none

/-- `{"type": "object", "title": <t>}` (an inline custom object). -/
def jCustom (t : String) : JVal :=
  .mk (some "object") none (some t) .none none none none none none none

/-- An object definition: `{"type": "object", "title": ..., "properties": ...}`. -/
def jObjectDef (title : String) (props : List (String × JVal)) : JVal :=
  .mk (some "object") none (some title) .none none none none none none (some props)

/-- A string-enum definition: `{"type": "string", "title": ..., "enum": [...]}`. -/
def jEnumDef (title : String) (vals : List String) : JVal :=
  .mk (some "string") none (some title) .none none none none none (some vals) none

/-! General lemmas about the embedding, shared by several claims. -/

@[simp] theorem except_bind_ok {α β : Type} (a : α) (f : α → Except String β) :
    (Except.ok a >>= f : Except String β) = f a := rfl

@[simp] theorem except_bind_error {α β : Type} (e : String) (f : α → Except String β) :
    (Except.error e >>= f : Except String β) = Except.error e := rfl

@[simp] theorem except_pure_eq {α : Type} (a : α) :
    (pure a : Except String α) = Except.ok a := rfl

theorem pyStartsWith_append (pre t : String) : pyStartsWith (pre ++ t) pre = true := by
  rw [pyStartsWith, List.isPrefixOf_iff_prefix]
  simp

theorem drop_definitions_marker (t : String) :
    ("#/definitions/" ++ t).drop ("#/definitions/".length) = t := by
  apply String.ext
  have h : ("#/definitions/" : String).length = 14 := rfl
  rw [h]
  simp [String.drop_eq]

theorem get_ref_type_name_jRef (t : String) : get_ref_type_name (jRef t) = .ok t := by
  simp [get_ref_type_name, jRef, JVal.ref?, pyStartsWith_append, drop_definitions_marker]

/-- Inserting an element whose key is no greater than every key of `ys`
lands inside (or at the end of) `xs`. -/
theorem orderedInsert_append_right {r : α → α → Prop} [DecidableRel r] (a : α)
    (xs ys : List α) (h : ∀ b ∈ ys, r a b) :
    List.orderedInsert r a (xs ++ ys) = List.orderedInsert r a xs ++ ys := by
  induction xs with
  | nil =>
    cases ys with
    | nil => rfl
    | cons y ys' =>
      simp only [List.nil_append, List.orderedInsert, h y (by simp)]
      simp
  | cons x xs' ih =>
    simp only [List.cons_append, List.orderedInsert]
    by_cases hr : r a x
    · simp [hr]
    · simp [hr, ih]

/-- Inserting an element strictly greater than every key of `xs` skips `xs`. -/
theorem orderedInsert_append_left {r : α → α → Prop} [DecidableRel r] (a : α)
    (xs ys : List α) (h : ∀ b ∈ xs, ¬ r a b) :
    List.orderedInsert r a (xs ++ ys) = xs ++ List.orderedInsert r a ys := by
  induction xs with
  | nil => rfl
  | cons x xs' ih =>
    simp only [List.cons_append, List.orderedInsert]
    have hx : ¬ r a x := h x (by simp)
    simp only [hx, if_false, List.append_eq]
    rw [ih fun b hb => h b (by simp [hb])]

/-- A stable sort of a list whose "low" (`P`) elements all have keys below
`N` and whose "high" elements have keys at least `N` and strictly increasing
along the list: the result is the sorted low part followed by the high part
in list order. -/
theorem insertionSort_threshold {α : Type _} (key : α → Nat) (P : α → Bool) (N : Nat) :
    ∀ l : List α,
      (∀ a ∈ l, P a = true → key a < N) →
      (∀ a ∈ l, P a = false → N ≤ key a) →
      List.Pairwise (fun a b => P a = false → P b = false → key a < key b) l →
      List.insertionSort (fun a b => key a ≤ key b) l =
        List.insertionSort (fun a b => key a ≤ key b) (l.filter P)
          ++ l.filter (fun a => !P a)
  | [] => by intro _ _ _; rfl
  | a :: l => by
    intro hlow hhigh hpw
    have ih := insertionSort_threshold key P N l
      (fun b hb => hlow b (by simp [hb]))
      (fun b hb => hhigh b (by simp [hb]))
      hpw.of_cons
    simp only [List.insertionSort, ih]
    cases hPa : P a with
    | true =>
      have h1 : ∀ b ∈ l.filter (fun x => !P x), (fun x y => key x ≤ key y) a b := by
        intro b hb
        have hbl := List.mem_filter.mp hb
        have hbP : P b = false := by simpa using hbl.2
        exact Nat.le_of_lt (Nat.lt_of_lt_of_le (hlow a (by simp) hPa)
          (hhigh b (by simp [hbl.1]) hbP))
      rw [orderedInsert_append_right a _ _ h1]
      simp [List.filter_cons, hPa, List.insertionSort]
    | false =>
      have h2 : ∀ b ∈ List.insertionSort (fun x y => key x ≤ key y) (l.filter P),
          ¬ (fun x y => key x ≤ key y) a b := by
        intro b hb
        have hbl := List.mem_filter.mp ((List.mem_insertionSort _).mp hb)
        have : key b < N := hlow b (by simp [hbl.1]) hbl.2
        have : key b < key a := Nat.lt_of_lt_of_le this (hhigh a (by simp) hPa)
        omega
      rw [orderedInsert_append_left a _ _ h2]
      have h3 : List.orderedInsert (fun x y => key x ≤ key y) a (l.filter (fun x => !P x))
          = a :: l.filter (fun x => !P x) := by
        cases hf : l.filter (fun x => !P x) with
        | nil => rfl
        | cons u us =>
          have hu : u ∈ l.filter (fun x => !P x) := by rw [hf]; simp
          have hul := List.mem_filter.mp hu
          have huP : P u = false := by simpa using hul.2
          have hau : key a < key u := by
            have := List.rel_of_pairwise_cons hpw hul.1
            exact this hPa huP
          simp [List.orderedInsert, Nat.le_of_lt hau]
      rw [h3]
      simp [List.filter_cons, hPa]

theorem enumValueLines_length (pfx : String) (vs : List String) :
    ∀ n, (enumValueLines pfx n vs).length = vs.length := by
  induction vs with
  | nil => intro n; rfl
  | cons v vs ih => intro n; simp [enumValueLines, ih]

theorem enumValueLines_getElem (pfx : String) (vs : List String) :
    ∀ n i, (enumValueLines pfx n vs)[i]? =
      (vs[i]?).map (fun v => "  " ++ render_value pfx v ++ " = " ++ toString (n + i) ++ ";") := by
  induction vs with
  | nil => intro n i; simp [enumValueLines]
  | cons v vs ih =>
    intro n i
    cases i with
    | zero => simp [enumValueLines]
    | succ j =>
      have h := ih (n + 1) j
      simp only [enumValueLines, List.getElem?_cons_succ, h]
      have : n + 1 + j = n + (j + 1) := by omega
      rw [this]

/-! ## C6: enum emission -/

/-- C6: for a `StringEnum` definition with title `t` and `N` declared values,
the emitted enum has exactly `N+1` values: value 0 is the unspecified
sentinel named `<T>_UNSPECIFIED` (title uppercased), and value `i+1` is the
`i`-th declared value, in declared order, named `<T>_<VALUE>` with the value
uppercased and spaces replaced by underscores. -/
theorem claim_C6 (e : JVal) (t : String) (vs : List String)
    (ht : e.title? = some t) (hv : e.enum? = some vs) :
    emit_proto_enum e = .ok (("enum " ++ t ++ " \x7b")
        :: ("  " ++ render_value (pyUpper t) "unspecified" ++ " = 0;")
        :: enumValueLines (pyUpper t) 1 vs ++ ["\x7d", ""])
    ∧ render_value (pyUpper t) "unspecified" = pyUpper t ++ "_UNSPECIFIED"
    ∧ (enumValueLines (pyUpper t) 1 vs).length = vs.length
    ∧ ∀ i, (enumValueLines (pyUpper t) 1 vs)[i]? =
        (vs[i]?).map (fun v =>
          "  " ++ (pyUpper t ++ "_" ++ pyReplaceChar (pyUpper v) ' ' '_')
            ++ " = " ++ toString (i + 1) ++ ";") := by
  refine ⟨?_, ?_, enumValueLines_length _ _ _, ?_⟩
  · simp [emit_proto_enum, ht, hv, orKeyError]
  · rw [render_value]
    rw [String.append_assoc]
    rfl
  · intro i
    have h := enumValueLines_getElem (pyUpper t) vs 1 i
    rw [h]
    have : 1 + i = i + 1 := by omega
    rw [this]
    rfl

/-- Witness for C6 at a concrete two-value enum. -/
theorem claim_C6_witness :
    emit_proto_enum (jEnumDef "AddressType" ["absolute", "relative va"]) =
      .ok ["enum AddressType \x7b", "  ADDRESSTYPE_UNSPECIFIED = 0;",
           "  ADDRESSTYPE_ABSOLUTE = 1;", "  ADDRESSTYPE_RELATIVE_VA = 2;", "\x7d", ""] := by
  have h := (claim_C6 (jEnumDef "AddressType" ["absolute", "relative va"])
      "AddressType" ["absolute", "relative va"] rfl rfl).1
  rw [h]
  rfl

/-! ## C10: union alternatives must be references or primitive-typed -/

theorem emit_union_alts_error_of_object (bad : JVal)
    (hbadRef : bad.ref? = none) (hbadType : bad.type? = some "object") :
    ∀ (alts : List JVal) (j c : Nat) (d : Deferred), bad ∈ alts →
      ∃ e, emit_union_alts j c d alts = .error e := by
  intro alts
  induction alts with
  | nil => intro j c d h; simp at h
  | cons of rest ih =>
    intro j c d hmem
    rcases List.mem_cons.mp hmem with heq | hrest
    · subst heq
      have h1 : is_ref bad = false := by simp [is_ref, hbadRef]
      have h2 : is_primitive_type bad = false := by simp [is_primitive_type, hbadType]
      exact ⟨"NotImplementedError: union alternative", by simp [emit_union_alts, h1, h2]⟩
    · rw [emit_union_alts]
      by_cases h1 : is_ref of
      · simp only [h1, if_true]
        cases hr : get_ref_type_name of with
        | error e => exact ⟨e, by simp [hr]⟩
        | ok ptype =>
          obtain ⟨e, he⟩ := ih (j + 1) (c + 1) d hrest
          exact ⟨e, by simp [hr, he]⟩
      · by_cases h2 : is_primitive_type of
        · simp only [h1, h2, if_true, if_false, Bool.false_eq_true]
          cases hp : get_primitive_type_name of with
          | error e => exact ⟨e, by simp [hp]⟩
          | ok ptype =>
            by_cases h3 : is_tuple of
            · simp only [h3, if_true]
              cases hmn : orKeyError of.minItems? "minItems" with
              | error e => exact ⟨e, by simp [hp, hmn]⟩
              | ok mn =>
                cases hits : tupleItemsOf of with
                | error e => exact ⟨e, by simp [hp, hmn, hits]⟩
                | ok its =>
                  obtain ⟨e, he⟩ := ih (j + 1) (c + 1)
                    (dictInsert ptype (DeferredType.tuple ptype mn its) d) hrest
                  exact ⟨e, by simp [hp, hmn, hits, he]⟩
            · simp only [h3, if_false, Bool.false_eq_true]
              obtain ⟨e, he⟩ := ih (j + 1) (c + 1) d hrest
              exact ⟨e, by simp [hp, he]⟩
        · exact ⟨"NotImplementedError: union alternative", by simp [h1, h2]⟩

/-- C10: a union alternative must classify as a reference or as a
primitive-typed shape.  An alternative carrying `"type": "object"` and no
`$ref` — an inline custom object or a map — makes emission of the containing
message fail with a fatal error, while a primitive-classified alternative
such as an array is accepted with its own field number. -/
theorem claim_C10 (nm : String) (prop bad : JVal) (alts : List JVal)
    (rest : List (String × JVal)) (n : Nat) (d : Deferred)
    (href : prop.ref? = none) (htype : prop.type? = none)
    (hany : prop.anyOf? = some alts)
    (hbad : bad ∈ alts) (hbadRef : bad.ref? = none) (hbadType : bad.type? = some "object") :
    (∃ e, emit_prop_lines n d ((nm, prop) :: rest) = .error e)
    ∧ emit_prop_lines 1 [] [("u", jUnion [jArrayOf jStr])] =
        .ok (["  oneof u \x7b", "    repeated string v0 = 1;", "  \x7d;"], [], 3) := by
  constructor
  · have h1 : is_ref prop = false := by simp [is_ref, href]
    have h2 : is_primitive_type prop = false := by simp [is_primitive_type, htype]
    have h3 : is_custom_type prop = false := by simp [is_custom_type, htype]
    have h4 : is_union prop = true := by simp [is_union, hany]
    obtain ⟨e, he⟩ := emit_union_alts_error_of_object bad hbadRef hbadType alts 0 n d hbad
    exact ⟨e, by simp [emit_prop_lines, h1, h2, h3, h4, hany, orKeyError, he]⟩
  · rfl

/-- Witness for C10: a union whose sole alternative is an inline custom
object fails. -/
theorem claim_C10_witness :
    (∃ e, emit_prop_lines 1 [] [("u", jUnion [jCustom "Inline"])] = .error e)
    ∧ emit_prop_lines 1 [] [("u", jUnion [jArrayOf jStr])] =
        .ok (["  oneof u \x7b", "    repeated string v0 = 1;", "  \x7d;"], [], 3) :=
  claim_C10 "u" (jUnion [jCustom "Inline"]) (jCustom "Inline") [jCustom "Inline"]
    [] 1 [] rfl rfl rfl (by simp) rfl rfl

/-! ## C1: field numbering within a message -/

/-- The alternative lines of a `oneof` block whose alternatives resolved to
the type names `ts`, indices from `j`, field numbers from `c`. -/
def unionAltLines (j c : Nat) : List String → List String
  | [] => []
  | t :: ts =>
    ("    " ++ t ++ " v" ++ toString j ++ " = " ++ toString c ++ ";")
      :: unionAltLines (j + 1) (c + 1) ts

theorem emit_union_alts_refs :
    ∀ (alts : List JVal) (ts : List String) (j c : Nat) (d : Deferred),
      (∀ of ∈ alts, is_ref of = true) →
      alts.mapM get_ref_type_name = .ok ts →
      emit_union_alts j c d alts = .ok (unionAltLines j c ts, d, c + alts.length) := by
  intro alts
  induction alts with
  | nil =>
    intro ts j c d _ hm
    simp only [List.mapM_nil, except_pure_eq, Except.ok.injEq] at hm
    subst hm
    rfl
  | cons of rest ih =>
    intro ts j c d hall hm
    rw [List.mapM_cons] at hm
    cases hr : get_ref_type_name of with
    | error e => rw [hr] at hm; simp at hm
    | ok t =>
      rw [hr] at hm
      cases hrm : rest.mapM get_ref_type_name with
      | error e => rw [hrm] at hm; simp at hm
      | ok ts' =>
        rw [hrm] at hm
        simp only [except_bind_ok, except_pure_eq, Except.ok.injEq] at hm
        subst hm
        rw [emit_union_alts]
        simp only [hall of (by simp), if_true, hr, except_bind_ok,
          ih ts' (j + 1) (c + 1) d (fun x hx => hall x (by simp [hx])) hrm,
          except_bind_ok, unionAltLines]
        have : c + 1 + rest.length = c + (rest.length + 1) := by omega
        simp [this]

/-- C1 as written is false on the code: after two scalar fields `{1,2}` and a
union with three alternatives `{3,4,5}`, the next property receives field
number 7, not 6 — the loop draws one extra counter value after the last
alternative, so the numbers used by the message are not contiguous. -/
theorem claim_C1_counterexample :
    emit_proto_message (fun t => if t = "Test" then some ["a", "b", "u", "w"] else none) []
      (jObjectDef "Test" [("a", jStr), ("b", jStr),
        ("u", jUnion [jRef "X", jRef "Y", jRef "Z"]), ("w", jStr)]) =
      .ok (["message Test \x7b", "  string a = 1;", "  string b = 2;",
            "  oneof u \x7b", "    X v0 = 3;", "    Y v1 = 4;", "    Z v2 = 5;", "  \x7d;",
            "  string w = 7;", "\x7d", ""], [])
    ∧ "  string w = 6;" ∉
        ["message Test \x7b", "  string a = 1;", "  string b = 2;",
         "  oneof u \x7b", "    X v0 = 3;", "    Y v1 = 4;", "    Z v2 = 5;", "  \x7d;",
         "  string w = 7;", "\x7d", ""] := by
  constructor
  · rfl
  · decide

/-- C1, amended: field numbers come from one shared counter starting at 1.  A
property that classifies as a reference consumes exactly one number; a union
property whose `K` alternatives are references assigns the `K` consecutive
numbers `n..n+K-1` to its alternatives but consumes `K+1` numbers, so the
property after it starts at `n+K+1` — one number is skipped after every union
property (a union with 3 alternatives after 2 scalars uses `{3,4,5}` and
anything following starts at 7). -/
theorem claim_C1_amended (nm : String) (p : JVal) (rest : List (String × JVal))
    (n : Nat) (d : Deferred) :
    (∀ t, get_ref_type_name p = .ok t → is_ref p = true →
      emit_prop_lines n d ((nm, p) :: rest) =
        Except.map (fun r =>
            (("  " ++ t ++ " " ++ sanitize_prop_name nm ++ " = " ++ toString n ++ ";") :: r.1,
             r.2))
          (emit_prop_lines (n + 1) d rest))
    ∧ (∀ (alts : List JVal) (ts : List String),
        p.ref? = none → p.type? = none → p.anyOf? = some alts →
        (∀ of ∈ alts, is_ref of = true) →
        alts.mapM get_ref_type_name = .ok ts →
        emit_prop_lines n d ((nm, p) :: rest) =
          Except.map (fun r =>
              (("  oneof " ++ sanitize_prop_name nm ++ " \x7b")
                  :: unionAltLines 0 n ts ++ ["  \x7d;"] ++ r.1,
               r.2))
            (emit_prop_lines (n + alts.length + 1) d rest)) := by
  constructor
  · intro t ht href
    rw [emit_prop_lines]
    simp only [href, if_true, ht, except_bind_ok]
    cases hrest : emit_prop_lines (n + 1) d rest with
    | error e => rfl
    | ok r => rfl
  · intro alts ts href htype hany hall hm
    have h1 : is_ref p = false := by simp [is_ref, href]
    have h2 : is_primitive_type p = false := by simp [is_primitive_type, htype]
    have h3 : is_custom_type p = false := by simp [is_custom_type, htype]
    have h4 : is_union p = true := by simp [is_union, hany]
    rw [emit_prop_lines]
    simp only [h1, h2, h3, h4, if_true, if_false, Bool.false_eq_true, hany, orKeyError,
      except_bind_ok, emit_union_alts_refs alts ts 0 n d hall hm]
    cases hrest : emit_prop_lines (n + alts.length + 1) d rest with
    | error e => rfl
    | ok r => rfl

/-- Witness for C1 (amended): the concrete `{1,2}` scalars / `{3,4,5}` union
/ following-field-at-7 instance. -/
theorem claim_C1_witness :
    emit_prop_lines 3 []
        [("u", jUnion [jRef "X", jRef "Y", jRef "Z"]), ("w", jStr)] =
      Except.map (fun r =>
          (("  oneof u \x7b")
              :: unionAltLines 0 3 ["X", "Y", "Z"] ++ ["  \x7d;"] ++ r.1,
           r.2))
        (emit_prop_lines 7 [] [("w", jStr)]) := by
  have h := (claim_C1_amended "u" (jUnion [jRef "X", jRef "Y", jRef "Z"])
      [("w", jStr)] 3 []).2 [jRef "X", jRef "Y", jRef "Z"] ["X", "Y", "Z"]
      rfl rfl rfl (by intro of hof; fin_cases hof <;> rfl) (by rfl)
  simpa using h

/-! ## C2: a definition title absent from the property-order table -/

theorem findIdx_beq_getElem :
    ∀ {l : List String}, l.Nodup → ∀ i (hi : i < l.length), l.findIdx (· == l[i]) = i := by
  intro l
  induction l with
  | nil => intro _ i hi; simp at hi
  | cons x xs ih =>
    intro hnd i hi
    cases i with
    | zero => simp [List.findIdx_cons]
    | succ j =>
      have hj : j < xs.length := by simpa using hi
      have hmem : xs[j] ∈ xs := List.getElem_mem hj
      have hx : ¬ (x == xs[j]) = true := by
        simp only [beq_iff_eq]
        intro hcontra
        exact (List.nodup_cons.mp hnd).1 (hcontra ▸ hmem)
      simp only [List.getElem_cons_succ, List.findIdx_cons, hx, cond_false]
      rw [ih (List.nodup_cons.mp hnd).2 j hj]

/-- The key `_enum_properties` sorts by, as a function of the element. -/
theorem get_property_index_of_unresolved (order names : List String) (numProps : Nat)
    (name : String) (h : sanitize_prop_name name ∉ order) :
    get_property_index order numProps names name = numProps + names.findIdx (· == name) := by
  simp [get_property_index, h]

/-- C2 fails on the code: a definition whose title is found in none of the
three reflected modules makes `_find_capa_class` raise `NotImplementedError`,
so emission of that definition — and hence the generation run — fails rather
than degrading to raw schema order. -/
theorem claim_C2_counterexample :
    emit_proto_message (fun _ => none) [] (jObjectDef "Nope" [("a", jStr)]) =
      .error "NotImplementedError: Nope" := rfl

/-- C2, amended: a title absent from the canonical property-order table is an
error — `_enum_properties`, and with it message emission, fails with
`NotImplementedError` naming the title.  Only the per-property fallback is a
non-fatal degradation: when the title is present but no property's
normalized name occurs in its order entry, every property lands in the
unresolved bucket and is emitted in raw schema-declared order. -/
theorem claim_C2_amended (table : String → Option (List String)) (msg : JVal)
    (d : Deferred) (t : String) :
    (msg.title? = some t → table t = none →
      emit_proto_message table d msg = .error ("NotImplementedError: " ++ t))
    ∧ (∀ (order : List String) (ps : List (String × JVal)),
        msg.title? = some t → table t = some order → msg.props? = some ps →
        (ps.map Prod.fst).Nodup →
        (∀ p ∈ ps, sanitize_prop_name p.1 ∉ order) →
        enum_properties table msg = .ok ps) := by
  constructor
  · intro ht habs
    simp [emit_proto_message, enum_properties, ht, habs, orKeyError, find_capa_class]
  · intro order ps ht hpresent hps hnd hunres
    simp only [enum_properties, ht, orKeyError, except_bind_ok, find_capa_class,
      hpresent, hps, Except.ok.injEq]
    apply List.Sorted.insertionSort_eq
    rw [List.Sorted, List.pairwise_iff_getElem]
    intro i j hi hj hij
    have hkey : ∀ k (hk : k < ps.length),
        get_property_index order ps.length (ps.map Prod.fst) ps[k].1 = ps.length + k := by
      intro k hk
      rw [get_property_index_of_unresolved _ _ _ _ (hunres ps[k] (List.getElem_mem hk))]
      have hk' : k < (ps.map Prod.fst).length := by simpa using hk
      have h3 : (ps.map Prod.fst)[k] = ps[k].1 := by simp
      have h2 := findIdx_beq_getElem hnd k hk'
      rw [h3] at h2
      rw [h2]
    rw [hkey i hi, hkey j hj]
    omega

/-- Witness for C2 (amended), at a one-property definition: absent title
fails; present title with a non-matching property order degrades to raw
order. -/
theorem claim_C2_witness :
    emit_proto_message (fun _ => none) [] (jObjectDef "Nope" [("a", jStr)]) =
      .error "NotImplementedError: Nope"
    ∧ enum_properties (fun t => if t = "Meta" then some ["other"] else none)
        (jObjectDef "Meta" [("x", jStr), ("y", jBool)]) =
      .ok [("x", jStr), ("y", jBool)] := by
  constructor
  · exact (claim_C2_amended (fun _ => none) (jObjectDef "Nope" [("a", jStr)]) [] "Nope").1
      rfl rfl
  · exact (claim_C2_amended (fun t => if t = "Meta" then some ["other"] else none)
      (jObjectDef "Meta" [("x", jStr), ("y", jBool)]) [] "Meta").2 ["other"]
      [("x", jStr), ("y", jBool)] rfl rfl rfl (by decide)
      (by intro p hp; fin_cases hp <;> decide)

/-! ## C3: canonical-order resolution -/

/-- The spec's "resolved" test (§4.2): the normalized property name occurs in
the canonical order entry. -/
def resolvedIn (order : List String) (p : String × JVal) : Bool :=
  decide (sanitize_prop_name p.1 ∈ order)

/-- C3 fails on the code: with canonical order `["a","b","c","d"]` — longer
than the two-element property list — property `x` is unresolved with sort key
`2 + 0 = 2` while resolved property `d` has canonical index 3, so the
unresolved property is emitted before the resolved one. -/
theorem claim_C3_counterexample :
    enum_properties (fun s => if s = "T" then some ["a", "b", "c", "d"] else none)
        (jObjectDef "T" [("x", jStr), ("d", jBool)]) =
      .ok [("x", jStr), ("d", jBool)]
    ∧ resolvedIn ["a", "b", "c", "d"] ("d", jBool) = true
    ∧ resolvedIn ["a", "b", "c", "d"] ("x", jStr) = false :=
  ⟨rfl, by decide, by decide⟩

/-- C3, amended: provided the canonical order entry is no longer than the
property list (as for entries read off the same class the properties come
from), the resolver emits all properties whose normalized name occurs in the
canonical order first, ordered by canonical index (stably), followed by the
remaining properties in their raw schema-declared relative order.  With an
order entry longer than the property list, a resolved property's canonical
index can reach past an unresolved property's key and the buckets interleave
(see the counterexample). -/
theorem claim_C3_amended (table : String → Option (List String)) (msg : JVal)
    (t : String) (order : List String) (ps : List (String × JVal))
    (ht : msg.title? = some t) (hp : table t = some order) (hps : msg.props? = some ps)
    (hnd : (ps.map Prod.fst).Nodup) (hlen : order.length ≤ ps.length) :
    enum_properties table msg = .ok (
      (ps.filter (resolvedIn order)).insertionSort (fun p q =>
        get_property_index order ps.length (ps.map Prod.fst) p.1 ≤
        get_property_index order ps.length (ps.map Prod.fst) q.1)
      ++ ps.filter (fun p => !resolvedIn order p)) := by
  simp only [enum_properties, ht, orKeyError, except_bind_ok, find_capa_class, hp, hps,
    Except.ok.injEq]
  exact insertionSort_threshold
    (fun p => get_property_index order ps.length (ps.map Prod.fst) p.1)
    (resolvedIn order) ps.length ps
    (by
      intro a _ hres
      have hmem : sanitize_prop_name a.1 ∈ order := by
        simpa [resolvedIn] using hres
      have h1 : order.findIdx (· == sanitize_prop_name a.1) < order.length :=
        List.findIdx_lt_length_of_exists ⟨_, hmem, by simp⟩
      simp only [get_property_index, hmem, if_true]
      omega)
    (by
      intro a _ hres
      have hmem : sanitize_prop_name a.1 ∉ order := by
        simpa [resolvedIn] using hres
      simp [get_property_index, hmem])
    (by
      rw [List.pairwise_iff_getElem]
      intro i j hi hj hij hri hrj
      have hmi : sanitize_prop_name ps[i].1 ∉ order := by
        simpa [resolvedIn] using hri
      have hmj : sanitize_prop_name ps[j].1 ∉ order := by
        simpa [resolvedIn] using hrj
      have hkey : ∀ k (hk : k < ps.length), sanitize_prop_name ps[k].1 ∉ order →
          get_property_index order ps.length (ps.map Prod.fst) ps[k].1 = ps.length + k := by
        intro k hk hm
        rw [get_property_index_of_unresolved _ _ _ _ hm]
        have hk' : k < (ps.map Prod.fst).length := by simpa using hk
        have h3 : (ps.map Prod.fst)[k] = ps[k].1 := by simp
        have h2 := findIdx_beq_getElem hnd k hk'
        rw [h3] at h2
        rw [h2]
      simp only []
      rw [hkey i hi hmi, hkey j hj hmj]
      omega)

/-- Witness for C3 (amended): order `["b","a"]`, properties `a`, `z`, `b` —
resolved `b`, `a` first in canonical order, unresolved `z` after. -/
theorem claim_C3_witness :
    enum_properties (fun s => if s = "T2" then some ["b", "a"] else none)
        (jObjectDef "T2" [("a", jStr), ("z", jStr), ("b", jBool)]) =
      .ok [("b", jBool), ("a", jStr), ("z", jStr)] := by
  have h := claim_C3_amended (fun s => if s = "T2" then some ["b", "a"] else none)
    (jObjectDef "T2" [("a", jStr), ("z", jStr), ("b", jBool)]) "T2" ["b", "a"]
    [("a", jStr), ("z", jStr), ("b", jBool)] rfl rfl rfl (by decide) (by decide)
  rw [h]
  rfl

/-! ## C4: array emission by item classification -/

theorem is_array_type? {p : JVal} (h : is_array p = true) : p.type? = some "array" := by
  unfold is_array at h
  cases hty : p.type? with
  | none => rw [hty] at h; exact absurd h (by simp)
  | some t =>
    rw [hty] at h
    by_cases hta : t = "array"
    · rw [hta]
    · simp [hta] at h

theorem is_array_not_tuple {p : JVal} (h : is_array p = true) : is_tuple p = false := by
  unfold is_array at h
  unfold is_tuple
  cases hty : p.type? with
  | none => simp
  | some t =>
    rw [hty] at h
    by_cases hta : t = "array"
    · subst hta
      simp only [bne_self_eq_false, Bool.false_eq_true, if_false] at h ⊢
      cases hmx : p.maxItems? with
      | none => simp
      | some mx =>
        cases hmn : p.minItems? with
        | none => simp
        | some mn =>
          rw [hmx, hmn] at h
          by_cases he : mx = mn
          · subst he; simp at h
          · simp [he]
    · simp [hta]

theorem is_map_type? {m : JVal} (h : is_map m = true) :
    m.type? = some "object" ∧ m.addProps?.isSome = true := by
  unfold is_map at h
  cases hty : m.type? with
  | none => rw [hty] at h; exact absurd h (by simp)
  | some t =>
    rw [hty] at h
    have h2 := (Bool.and_eq_true _ _).mp h
    have h1 : t = "object" := by simpa using h2.1
    exact ⟨by rw [h1], h2.2⟩

/-- C4 fails on the code: an array whose item is itself an array is not an
unsupported-shape error — a nested array item counts as primitive-typed
(`type` present, not `"object"`) and yields a doubly-`repeated` type name. -/
theorem claim_C4_counterexample :
    get_primitive_type_name (jArrayOf (jArrayOf jStr)) = .ok "repeated repeated string" := rfl

/-- The array branch of `get_primitive_type_name`, exposed as an equation. -/
theorem gptn_array_items {p m : JVal} (hitems : p.items? = .dict m)
    (htype : p.type? = some "array") (hnt : is_tuple p = false)
    (harr : is_array p = true) :
    get_primitive_type_name p =
      (if is_primitive_type m then do
          let atype ← get_primitive_type_name m
          Except.ok ("repeated " ++ atype)
        else if is_ref m then do
          let atype ← get_ref_type_name m
          Except.ok ("repeated " ++ atype)
        else if is_custom_type m then do
          let atype ← get_custom_type_name m
          Except.ok ("repeated " ++ atype)
        else Except.error "NotImplementedError: array item") := by
  have hprim : is_primitive_type p = true := by simp [is_primitive_type, htype]
  cases p with
  | mk ty r ti items mx mn ap ao e pr =>
    simp only [JVal.items?] at hitems
    simp only [JVal.type?] at htype
    subst hitems
    subst htype
    rw [get_primitive_type_name]
    simp only [hprim, hnt, harr, Bool.not_true, Bool.false_eq_true, if_false, if_true,
      show ("array" == "string") = false from rfl,
      show ("array" == "boolean") = false from rfl,
      show ("array" == "integer") = false from rfl,
      show ("array" == "number") = false from rfl]
    rw [array_item_type_name]

/-- C4, amended: for an array property, the emitter produces one `repeated`
field of the item's resolved type name when the item classifies as
primitive-typed (which includes nested arrays and tuples), as a reference, or
as an inline custom object, in that branch order; an array whose item is a
map is an unsupported-shape error, but a nested array item is accepted and
yields a doubly-repeated type name. -/
theorem claim_C4 (p m : JVal) (hitems : p.items? = .dict m) (harr : is_array p = true) :
    (∀ t, is_primitive_type m = true → get_primitive_type_name m = .ok t →
        get_primitive_type_name p = .ok ("repeated " ++ t))
    ∧ (∀ t, is_primitive_type m = false → is_ref m = true → get_ref_type_name m = .ok t →
        get_primitive_type_name p = .ok ("repeated " ++ t))
    ∧ (∀ t, is_primitive_type m = false → is_ref m = false → is_custom_type m = true →
        get_custom_type_name m = .ok t →
        get_primitive_type_name p = .ok ("repeated " ++ t))
    ∧ (is_map m = true → m.ref? = none →
        get_primitive_type_name p = .error "NotImplementedError: array item") := by
  have htype := is_array_type? harr
  have hprim : is_primitive_type p = true := by simp [is_primitive_type, htype]
  have hnt := is_array_not_tuple harr
  refine ⟨?_, ?_, ?_, ?_⟩
  · intro t hm hval
    rw [gptn_array_items hitems htype hnt harr]
    simp [hm, hval]
  · intro t hm href hval
    rw [gptn_array_items hitems htype hnt harr]
    simp [hm, href, hval]
  · intro t hm href hcust hval
    rw [gptn_array_items hitems htype hnt harr]
    simp [hm, href, hcust, hval]
  · intro hmap href
    obtain ⟨hmt, hma⟩ := is_map_type? hmap
    have hm : is_primitive_type m = false := by simp [is_primitive_type, hmt]
    have hr : is_ref m = false := by simp [is_ref, href]
    cases hap : m.addProps? with
    | none => rw [hap] at hma; simp at hma
    | some av =>
      have hc : is_custom_type m = false := by simp [is_custom_type, hmt, hap]
      rw [gptn_array_items hitems htype hnt harr]
      simp [hm, hr, hc]

/-- Witness for C4: an array of `Address` references emits
`repeated Address`; an array of maps is an unsupported-shape error. -/
theorem claim_C4_witness :
    get_primitive_type_name (jArrayOf (jRef "Address")) = .ok "repeated Address"
    ∧ get_primitive_type_name (jArrayOf (jMapOf jStr)) =
        .error "NotImplementedError: array item" := by
  constructor
  · exact (claim_C4 (jArrayOf (jRef "Address")) (jRef "Address") rfl (by decide)).2.1
      "Address" rfl rfl (get_ref_type_name_jRef "Address")
  · exact (claim_C4 (jArrayOf (jMapOf jStr)) (jMapOf jStr) rfl (by decide)).2.2.2
      rfl rfl

/-! ## C8: map properties and the ArrayWrapper deferred type -/

/-- C8 fails on the code in its quoted field syntax: the emitted map field
text is `map <string, Array_Address> captures = 1;` — with a space between
`map` and `<` — not `map<string, Array_Address> ...` as the claim writes it.
The wrapper registration and deferred message are as claimed. -/
theorem claim_C8_counterexample :
    emit_prop_lines 1 [] [("captures", jMapOf (jArrayOf (jRef "Address")))] =
      .ok (["  map <string, Array_Address> captures = 1;"],
           [("Array_Address", DeferredType.array "Array_Address" (jRef "Address"))], 2)
    ∧ "  map<string, Array_Address> captures = 1;" ≠
        "  map <string, Array_Address> captures = 1;" := by
  constructor
  · rfl
  · decide

/-- C8, amended: a map property whose value shape is an array of items with
type name `X` registers the deferred wrapper `Array_<X>` and emits the field
`map <string, Array_<X>> <name> = <n>;` (note the space after `map`); a map
property with a plain value shape emits a direct map-typed field of that
value's type name; and a run containing two such array-valued maps of the
same item type emits exactly one `message Array_Address { repeated Address
values = 1; }` in the deferred section. -/
theorem claim_C8 (nm : String) (p ap : JVal) (rest : List (String × JVal))
    (n : Nat) (d : Deferred)
    (href : p.ref? = none) (htype : p.type? = some "object")
    (hap : p.addProps? = some ap) (hany : p.anyOf? = none) :
    (∀ (item : JVal) (X : String), ap.items? = .dict item → is_array ap = true →
      get_type_name item = .ok X →
      emit_prop_lines n d ((nm, p) :: rest) =
        Except.map (fun r =>
            (("  map <string, " ++ ("Array_" ++ X) ++ "> " ++ sanitize_prop_name nm
                ++ " = " ++ toString n ++ ";") :: r.1, r.2))
          (emit_prop_lines (n + 1)
            (dictInsert ("Array_" ++ X) (DeferredType.array ("Array_" ++ X) item) d) rest))
    ∧ (∀ V, is_array ap = false → get_type_name ap = .ok V →
      emit_prop_lines n d ((nm, p) :: rest) =
        Except.map (fun r =>
            (("  map <string, " ++ V ++ "> " ++ sanitize_prop_name nm
                ++ " = " ++ toString n ++ ";") :: r.1, r.2))
          (emit_prop_lines (n + 1) d rest))
    ∧ (generate_proto_lines
          (fun t => if t = "B" then some ["m1", "m2"] else none)
          [("B", jObjectDef "B"
            [("m1", jMapOf (jArrayOf (jRef "Address"))),
             ("m2", jMapOf (jArrayOf (jRef "Address")))])]).map
        (fun ls => (ls.filter
          (· == "message Array_Address \x7b repeated Address values = 1; \x7d\n")).length)
        = .ok 1 := by
  have h1 : is_ref p = false := by simp [is_ref, href]
  have h2 : is_primitive_type p = false := by simp [is_primitive_type, htype]
  have h3 : is_custom_type p = false := by simp [is_custom_type, htype, hap]
  have h4 : is_union p = false := by simp [is_union, hany]
  have h5 : is_map p = true := by simp [is_map, htype, hap]
  refine ⟨?_, ?_, ?_⟩
  · intro item X hitem harr hX
    rw [emit_prop_lines]
    simp only [h1, h2, h3, h4, h5, if_true, if_false, Bool.false_eq_true, hap, orKeyError,
      except_bind_ok, harr, hitem, hX, except_pure_eq]
    cases hrest : emit_prop_lines (n + 1)
        (dictInsert ("Array_" ++ X) (DeferredType.array ("Array_" ++ X) item) d) rest with
    | error e => rfl
    | ok r => rfl
  · intro V harr hV
    rw [emit_prop_lines]
    simp only [h1, h2, h3, h4, h5, if_true, if_false, Bool.false_eq_true, hap, orKeyError,
      except_bind_ok, harr, hV, except_pure_eq]
    cases hrest : emit_prop_lines (n + 1) d rest with
    | error e => rfl
    | ok r => rfl
  · rfl

/-- Witness for C8: the concrete `captures` map
field and its registered wrapper. -/
theorem claim_C8_witness :
    emit_prop_lines 1 [] [("captures", jMapOf (jArrayOf (jRef "Address")))] =
      Except.map (fun r =>
          (("  map <string, " ++ ("Array_" ++ "Address") ++ "> captures = 1;") :: r.1, r.2))
        (emit_prop_lines 2
          [("Array_" ++ "Address",
            DeferredType.array ("Array_" ++ "Address") (jRef "Address"))] []) := by
  have h := (claim_C8 "captures" (jMapOf (jArrayOf (jRef "Address"))) (jArrayOf (jRef "Address"))
      [] 1 [] rfl rfl rfl rfl).1 (jRef "Address") "Address" rfl (by decide)
      (by
        simp [get_type_name, is_primitive_type, is_custom_type, is_ref, jRef,
          JVal.type?, JVal.ref?, get_ref_type_name]
        rfl)
  simpa [sanitize_prop_name, pyReplaceChar] using h

/-! ## C9: deferred-type registration -/

/-- The lines of a drained tuple wrapper, as a function of the already
resolved element type names. -/
def tupleNameLines (i : Nat) : List String → List String
  | [] => []
  | t :: ts =>
    ("  " ++ t ++ " v" ++ toString i ++ " = " ++ toString (i + 1) ++ ";")
      :: tupleNameLines (i + 1) ts

theorem get_type_names_cons (x : JVal) (xs : JList) :
    get_type_names (.jcons x xs) = (do
      let n ← get_type_name x
      let ns ← get_type_names xs
      Except.ok (n :: ns)) := by
  rw [get_type_names, get_type_name]
  by_cases h1 : is_primitive_type x
  · simp only [h1, if_true]
  · simp only [h1, Bool.false_eq_true, if_false]
    by_cases h2 : is_custom_type x
    · simp only [h2, if_true]
    · simp only [h2, Bool.false_eq_true, if_false]
      by_cases h3 : is_ref x
      · simp only [h3, if_true]
      · simp only [h3, Bool.false_eq_true, if_false]

theorem tuple_item_lines_eq : ∀ (its : JList) (i : Nat),
    tuple_item_lines i its = Except.map (tupleNameLines i) (get_type_names its)
  | .jnil => by
    intro i
    simp [tuple_item_lines, get_type_names, tupleNameLines, Except.map]
  | .jcons x xs => by
    intro i
    rw [tuple_item_lines, get_type_names_cons]
    cases hx : get_type_name x with
    | error e => rfl
    | ok n =>
      rw [tuple_item_lines_eq xs (i + 1)]
      cases hxs : get_type_names xs with
      | error e => rfl
      | ok ns => rfl

/-- Pairwise relation on registry entries: same key, same drained lines. -/
def entryEquiv (a b : String × DeferredType) : Prop :=
  a.1 = b.1 ∧ emit_deferred_lines [a] = emit_deferred_lines [b]

theorem entryEquiv_refl (a : String × DeferredType) : entryEquiv a a := ⟨rfl, rfl⟩

theorem emit_deferred_cons (a : String × DeferredType) (t : Deferred) :
    emit_deferred_lines (a :: t) = (do
      let la ← emit_deferred_lines [a]
      let lt ← emit_deferred_lines t
      Except.ok (la ++ lt)) := by
  obtain ⟨k, e⟩ := a
  cases e with
  | array nm item =>
    rw [emit_deferred_lines, emit_deferred_lines]
    cases hg : get_type_name item with
    | error er => rfl
    | ok vt =>
      simp only [except_bind_ok, emit_deferred_lines, except_pure_eq]
      cases ht : emit_deferred_lines t with
      | error er => rfl
      | ok lt => simp
  | tuple nm c its =>
    rw [emit_deferred_lines, emit_deferred_lines]
    cases hg : tuple_item_lines 0 its with
    | error er => rfl
    | ok itl =>
      simp only [except_bind_ok, emit_deferred_lines, except_pure_eq]
      cases ht : emit_deferred_lines t with
      | error er => rfl
      | ok lt => simp

theorem emit_deferred_congr : ∀ {d1 d2 : Deferred}, List.Forall₂ entryEquiv d1 d2 →
    emit_deferred_lines d1 = emit_deferred_lines d2 := by
  intro d1
  induction d1 with
  | nil => intro d2 h; cases h; rfl
  | cons a t ih =>
    intro d2 h
    cases h with
    | cons hab ht =>
      rename_i b t2
      rw [emit_deferred_cons a t, emit_deferred_cons b t2, hab.2, ih ht]

theorem orderedInsert_congr : ∀ {l1 l2 : Deferred} {a b : String × DeferredType},
    entryEquiv a b → List.Forall₂ entryEquiv l1 l2 →
    List.Forall₂ entryEquiv
      (List.orderedInsert (fun x y => pyStrLe x.1 y.1 = true) a l1)
      (List.orderedInsert (fun x y => pyStrLe x.1 y.1 = true) b l2) := by
  intro l1
  induction l1 with
  | nil =>
    intro l2 a b hab h
    cases h
    exact List.Forall₂.cons hab List.Forall₂.nil
  | cons x t ih =>
    intro l2 a b hab h
    cases h with
    | cons hxy ht =>
      rename_i y t2
      simp only [List.orderedInsert]
      by_cases hc : pyStrLe a.1 x.1 = true
      · rw [if_pos hc, if_pos (by rw [← hab.1, ← hxy.1]; exact hc)]
        exact List.Forall₂.cons hab (List.Forall₂.cons hxy ht)
      · rw [if_neg hc, if_neg (by rw [← hab.1, ← hxy.1]; exact hc)]
        exact List.Forall₂.cons hxy (ih hab ht)

theorem sortDeferred_congr : ∀ {d1 d2 : Deferred}, List.Forall₂ entryEquiv d1 d2 →
    List.Forall₂ entryEquiv (sortDeferred d1) (sortDeferred d2) := by
  intro d1
  induction d1 with
  | nil => intro d2 h; cases h; exact List.Forall₂.nil
  | cons a t ih =>
    intro d2 h
    cases h with
    | cons hab ht => exact orderedInsert_congr hab (ih ht)

theorem forall₂_entryEquiv_refl : ∀ (d : Deferred), List.Forall₂ entryEquiv d d := by
  intro d
  induction d with
  | nil => exact List.Forall₂.nil
  | cons a t ih => exact List.Forall₂.cons (entryEquiv_refl a) ih

/-- C9 fails on the code: registration is dictionary assignment, which
overwrites.  Two distinct tuple shapes can derive the same wrapper name when
element type names contain underscores (`["A_B","C"]` and `["A","B_C"]` both
derive `Pair_A_B_C`), and then re-registering the already-registered name
changes the drained output. -/
theorem claim_C9_counterexample :
    get_tuple_type_name (jTupleOf [jRef "A_B", jRef "C"] 2) = .ok "Pair_A_B_C"
    ∧ get_tuple_type_name (jTupleOf [jRef "A", jRef "B_C"] 2) = .ok "Pair_A_B_C"
    ∧ emit_deferred_lines (sortDeferred (dictInsert "Pair_A_B_C"
          (DeferredType.tuple "Pair_A_B_C" 2 (jlist [jRef "A", jRef "B_C"]))
          (dictInsert "Pair_A_B_C"
            (DeferredType.tuple "Pair_A_B_C" 2 (jlist [jRef "A_B", jRef "C"])) []))) =
        .ok ["message Pair_A_B_C \x7b", "  A v0 = 1;", "  B_C v1 = 2;", "\x7d\n"]
    ∧ emit_deferred_lines (sortDeferred (dictInsert "Pair_A_B_C"
          (DeferredType.tuple "Pair_A_B_C" 2 (jlist [jRef "A_B", jRef "C"])) [])) =
        .ok ["message Pair_A_B_C \x7b", "  A_B v0 = 1;", "  C v1 = 2;", "\x7d\n"]
    ∧ (["message Pair_A_B_C \x7b", "  A v0 = 1;", "  B_C v1 = 2;", "\x7d\n"] ≠
        ["message Pair_A_B_C \x7b", "  A_B v0 = 1;", "  C v1 = 2;", "\x7d\n"]) :=
  ⟨rfl, rfl, rfl, rfl, by decide⟩

theorem dictInsert_mem_keys {α : Type} (kk : String) (ee : α) :
    ∀ (rr : List (String × α)) (y : String),
      y ∈ (dictInsert kk ee rr).map Prod.fst → y = kk ∨ y ∈ rr.map Prod.fst := by
  intro rr
  induction rr with
  | nil => intro y hy; simp [dictInsert] at hy; exact Or.inl hy
  | cons z zt ih =>
    intro y hy
    obtain ⟨z1, z2⟩ := z
    by_cases hz : z1 = kk
    · simp only [dictInsert, show (z1 == kk) = true from by simp [hz], if_true,
        List.map_cons, List.mem_cons] at hy
      rcases hy with hy | hy
      · exact Or.inl hy
      · exact Or.inr (by simp [hy])
    · simp only [dictInsert, show (z1 == kk) = false from by simp [hz],
        Bool.false_eq_true, if_false, List.map_cons, List.mem_cons] at hy
      rcases hy with hy | hy
      · exact Or.inr (by simp [hy])
      · rcases ih y hy with h | h
        · exact Or.inl h
        · exact Or.inr (by simp [h])

theorem dictInsert_keys_nodup {α : Type} (kk : String) (ee : α) :
    ∀ (rr : List (String × α)), (rr.map Prod.fst).Nodup →
      ((dictInsert kk ee rr).map Prod.fst).Nodup := by
  intro rr
  induction rr with
  | nil => intro _; simp [dictInsert]
  | cons z zt ih =>
    intro hnd
    obtain ⟨z1, z2⟩ := z
    simp only [List.map_cons, List.nodup_cons] at hnd
    by_cases hz : z1 = kk
    · subst hz
      simp only [dictInsert, show (z1 == z1) = true from by simp, if_true,
        List.map_cons, List.nodup_cons]
      exact ⟨hnd.1, hnd.2⟩
    · simp only [dictInsert, show (z1 == kk) = false from by simp [hz],
        Bool.false_eq_true, if_false, List.map_cons, List.nodup_cons]
      refine ⟨?_, ih hnd.2⟩
      intro hmem
      rcases dictInsert_mem_keys kk ee zt z1 hmem with h | h
      · exact hz h
      · exact hnd.1 h

/-- C9, amended: registration is write-per-name with overwrite semantics.
Re-registering a name with the identical entry is a no-op on the registry;
keys stay duplicate-free, so each derived name yields exactly one deferred
definition in the drained output; and re-registering a name with a tuple
entry whose ordered element-type-name sequence is identical leaves the
drained output unchanged.  (Only when two distinct sequences collide on one
derived name — possible because `_`-joined names are ambiguous — does the
last registration win and change the output, as the counterexample shows.) -/
theorem claim_C9 (k : String) (e e1 e2 : DeferredType) (r : Deferred)
    (c1 c2 : Nat) (its1 its2 : JList)
    (hseq : get_type_names its1 = get_type_names its2) :
    dictInsert k e (dictInsert k e r) = dictInsert k e r
    ∧ dictInsert k e2 (dictInsert k e1 r) = dictInsert k e2 r
    ∧ ((r.map Prod.fst).Nodup → ((dictInsert k e r).map Prod.fst).Nodup)
    ∧ emit_deferred_lines (sortDeferred (dictInsert k (DeferredType.tuple k c2 its2)
          (dictInsert k (DeferredType.tuple k c1 its1) r))) =
        emit_deferred_lines (sortDeferred (dictInsert k (DeferredType.tuple k c1 its1) r)) := by
  have hover : ∀ (e1 e2 : DeferredType) (r : Deferred),
      dictInsert k e2 (dictInsert k e1 r) = dictInsert k e2 r := by
    intro e1 e2 r
    induction r with
    | nil => simp [dictInsert]
    | cons x t ih =>
      by_cases hx : x.1 = k
      · simp [dictInsert, hx]
      · simp [dictInsert, hx, ih]
  refine ⟨hover e e r, hover e1 e2 r, fun hnd => dictInsert_keys_nodup k e r hnd, ?_⟩
  rw [hover]
  apply emit_deferred_congr
  apply sortDeferred_congr
  have hrender : emit_deferred_lines [(k, DeferredType.tuple k c2 its2)] =
      emit_deferred_lines [(k, DeferredType.tuple k c1 its1)] := by
    simp only [emit_deferred_lines]
    rw [tuple_item_lines_eq its2 0, tuple_item_lines_eq its1 0, hseq]
  induction r with
  | nil =>
    simp only [dictInsert]
    exact List.Forall₂.cons ⟨rfl, hrender⟩ List.Forall₂.nil
  | cons x t ih =>
    obtain ⟨x1, x2⟩ := x
    by_cases hx : x1 = k
    · subst hx
      simp only [dictInsert, show (x1 == x1) = true from by simp, if_true]
      exact List.Forall₂.cons ⟨rfl, hrender⟩ (forall₂_entryEquiv_refl t)
    · simp only [dictInsert, show (x1 == k) = false from by simp [hx],
        Bool.false_eq_true, if_false]
      exact List.Forall₂.cons (entryEquiv_refl _) ih

/-- Witness for C9 at the `Pair_Address_Match` wrapper. -/
theorem claim_C9_witness :
    dictInsert "Pair_Address_Match"
        (DeferredType.tuple "Pair_Address_Match" 2 (jlist [jRef "Address", jRef "Match"]))
        (dictInsert "Pair_Address_Match"
          (DeferredType.tuple "Pair_Address_Match" 2 (jlist [jRef "Address", jRef "Match"])) []) =
      dictInsert "Pair_Address_Match"
        (DeferredType.tuple "Pair_Address_Match" 2 (jlist [jRef "Address", jRef "Match"])) []
    ∧ emit_deferred_lines (sortDeferred (dictInsert "Pair_Address_Match"
          (DeferredType.tuple "Pair_Address_Match" 2 (jlist [jRef "Address", jRef "Match"]))
          (dictInsert "Pair_Address_Match"
            (DeferredType.tuple "Pair_Address_Match" 2
              (jlist [jRef "Address", jRef "Match"])) []))) =
        emit_deferred_lines (sortDeferred (dictInsert "Pair_Address_Match"
          (DeferredType.tuple "Pair_Address_Match" 2
            (jlist [jRef "Address", jRef "Match"])) [])) := by
  have h := claim_C9 "Pair_Address_Match"
    (DeferredType.tuple "Pair_Address_Match" 2 (jlist [jRef "Address", jRef "Match"]))
    (DeferredType.tuple "Pair_Address_Match" 2 (jlist [jRef "Address", jRef "Match"]))
    (DeferredType.tuple "Pair_Address_Match" 2 (jlist [jRef "Address", jRef "Match"]))
    [] 2 2 (jlist [jRef "Address", jRef "Match"]) (jlist [jRef "Address", jRef "Match"]) rfl
  exact ⟨h.1, h.2.2.2⟩

/-! ## C5: determinism and deterministic output order -/

theorem pyCharListLe_total : ∀ (a b : List Char),
    pyCharListLe a b = true ∨ pyCharListLe b a = true
  | [], _ => Or.inl rfl
  | _ :: _, [] => Or.inr rfl
  | a :: as, b :: bs => by
    by_cases h1 : a.toNat < b.toNat
    · exact Or.inl (by simp [pyCharListLe, h1])
    · by_cases h2 : b.toNat < a.toNat
      · exact Or.inr (by simp [pyCharListLe, h2])
      · rcases pyCharListLe_total as bs with h | h
        · exact Or.inl (by simp [pyCharListLe, h1, h2, h])
        · exact Or.inr (by simp [pyCharListLe, h1, h2, h])

theorem pyCharListLe_trans : ∀ {a b c : List Char},
    pyCharListLe a b = true → pyCharListLe b c = true → pyCharListLe a c = true
  | [], _, _, _, _ => rfl
  | _ :: _, [], _, h1, _ => by simp [pyCharListLe] at h1
  | _ :: _, _ :: _, [], _, h2 => by simp [pyCharListLe] at h2
  | a :: as, b :: bs, c :: cs, h1, h2 => by
    simp only [pyCharListLe] at h1 h2 ⊢
    by_cases hab : a.toNat < b.toNat
    · by_cases hbc : b.toNat < c.toNat
      · simp [show a.toNat < c.toNat by omega]
      · by_cases hcb : c.toNat < b.toNat
        · rw [if_neg hbc, if_pos hcb] at h2
          exact absurd h2 (by simp)
        · simp [show a.toNat < c.toNat by omega]
    · by_cases hba : b.toNat < a.toNat
      · rw [if_neg hab, if_pos hba] at h1
        exact absurd h1 (by simp)
      · rw [if_neg hab, if_neg hba] at h1
        by_cases hbc : b.toNat < c.toNat
        · simp [show a.toNat < c.toNat by omega]
        · by_cases hcb : c.toNat < b.toNat
          · rw [if_neg hbc, if_pos hcb] at h2
            exact absurd h2 (by simp)
          · rw [if_neg hbc, if_neg hcb] at h2
            rw [if_neg (show ¬ a.toNat < c.toNat by omega),
              if_neg (show ¬ c.toNat < a.toNat by omega)]
            exact pyCharListLe_trans h1 h2

theorem pyCharListLe_antisymm : ∀ {a b : List Char},
    pyCharListLe a b = true → pyCharListLe b a = true → a = b
  | [], [], _, _ => rfl
  | [], _ :: _, _, h2 => by simp [pyCharListLe] at h2
  | _ :: _, [], h1, _ => by simp [pyCharListLe] at h1
  | a :: as, b :: bs, h1, h2 => by
    simp only [pyCharListLe] at h1 h2
    by_cases hab : a.toNat < b.toNat
    · rw [if_neg (show ¬ b.toNat < a.toNat by omega), if_pos hab] at h2
      exact absurd h2 (by simp)
    · by_cases hba : b.toNat < a.toNat
      · rw [if_neg hab, if_pos hba] at h1
        exact absurd h1 (by simp)
      · rw [if_neg hab, if_neg hba] at h1
        rw [if_neg hba, if_neg hab] at h2
        have h3 : a.toNat = b.toNat := by omega
        have hc : a = b := Char.eq_of_val_eq (UInt32.ext h3)
        rw [hc, pyCharListLe_antisymm h1 h2]

instance : IsTotal String (fun a b => pyStrLe a b = true) :=
  ⟨fun a b => pyCharListLe_total a.data b.data⟩

instance : IsTrans String (fun a b => pyStrLe a b = true) :=
  ⟨fun _ _ _ => pyCharListLe_trans⟩

instance : IsAntisymm String (fun a b => pyStrLe a b = true) :=
  ⟨fun _ _ h1 h2 => String.ext (pyCharListLe_antisymm h1 h2)⟩

theorem sortedKeys_perm_eq {defs1 defs2 : List (String × JVal)} (h : defs1.Perm defs2) :
    sortedKeys defs1 = sortedKeys defs2 := by
  apply List.eq_of_perm_of_sorted
    ((List.perm_insertionSort _ _).trans
      ((h.map Prod.fst).trans (List.perm_insertionSort _ _).symm))
    (List.sorted_insertionSort _ _)
    (List.sorted_insertionSort _ _)

theorem dictGet_eq_filter {α : Type} (k : String) :
    ∀ (l : List (String × α)),
      dictGet k l = ((l.filter (fun p => p.1 == k)).head?).map Prod.snd := by
  intro l
  induction l with
  | nil => rfl
  | cons x t ih =>
    obtain ⟨x1, x2⟩ := x
    by_cases hx : x1 = k
    · simp [dictGet, List.filter_cons, hx]
    · simp [dictGet, List.filter_cons, hx, ih]

theorem filter_key_len_le_one {α : Type} (k : String) :
    ∀ (l : List (String × α)), (l.map Prod.fst).Nodup →
      (l.filter (fun p => p.1 == k)).length ≤ 1 := by
  intro l
  induction l with
  | nil => intro _; simp
  | cons x t ih =>
    intro hnd
    obtain ⟨x1, x2⟩ := x
    simp only [List.map_cons, List.nodup_cons] at hnd
    by_cases hx : x1 = k
    · have hempty : t.filter (fun p => p.1 == k) = [] := by
        rw [List.filter_eq_nil_iff]
        intro p hp
        simp only [beq_iff_eq]
        intro hpk
        exact hnd.1 (by
          have : p.1 ∈ t.map Prod.fst := List.mem_map_of_mem Prod.fst hp
          rwa [hpk, ← hx] at this)
      simp [List.filter_cons, hx, hempty]
    · simp only [List.filter_cons]
      simp only [show (x1 == k) = false from by simp [hx], Bool.false_eq_true, if_false]
      exact ih hnd.2

theorem perm_len_le_one_eq {α : Type} {l1 l2 : List α} (h : l1.Perm l2)
    (hl : l1.length ≤ 1) : l1 = l2 := by
  cases l1 with
  | nil => exact (h.symm.eq_nil).symm
  | cons a t =>
    cases t with
    | nil => exact (List.perm_singleton.mp h.symm).symm
    | cons b t2 => simp at hl

theorem dictGet_perm {α : Type} (k : String) {l1 l2 : List (String × α)}
    (h : l1.Perm l2) (hnd : (l1.map Prod.fst).Nodup) : dictGet k l1 = dictGet k l2 := by
  rw [dictGet_eq_filter, dictGet_eq_filter,
    perm_len_le_one_eq (h.filter (fun p => p.1 == k)) (filter_key_len_le_one k l1 hnd)]

theorem emit_proto_entry_congr (table : String → Option (List String)) (d : Deferred)
    {defs1 defs2 : List (String × JVal)} (h : ∀ t, dictGet t defs1 = dictGet t defs2)
    (name : String) :
    emit_proto_entry table d defs1 name = emit_proto_entry table d defs2 name := by
  rw [emit_proto_entry, emit_proto_entry]
  by_cases hs : (!pyStartsWith name "#/definitions/") = true
  · rw [if_pos hs, if_pos hs]
  · rw [if_neg hs, if_neg hs]
    simp only [h]

theorem emit_entries_congr (table : String → Option (List String))
    {defs1 defs2 : List (String × JVal)} (h : ∀ t, dictGet t defs1 = dictGet t defs2) :
    ∀ (ks : List String) (d : Deferred),
      emit_entries table d defs1 ks = emit_entries table d defs2 ks := by
  intro ks
  induction ks with
  | nil => intro d; rfl
  | cons k kt ih =>
    intro d
    rw [emit_entries, emit_entries, emit_proto_entry_congr table d h]
    cases emit_proto_entry table d defs2 ("#/definitions/" ++ k) with
    | error e => rfl
    | ok r =>
      simp only [except_bind_ok]
      rw [ih r.2]

/-- C5: two generation runs on the same schema structure produce
byte-identical output regardless of the order in which the definitions
mapping presents its entries, because the driver iterates titles in sorted
order and dictionary lookups are order-independent; and (shown on a concrete
three-definition schema presented unsorted) the primary definitions appear in
lexicographic order of title, followed by the deferred types sorted by name,
followed by the two fixed helper types. -/
theorem claim_C5 (table : String → Option (List String))
    (defs1 defs2 : List (String × JVal))
    (hperm : defs1.Perm defs2) (hnd : (defs1.map Prod.fst).Nodup) :
    generate_proto_from_pydantic table defs1 = generate_proto_from_pydantic table defs2
    ∧ sortedKeys defs1 = sortedKeys defs2
    ∧ generate_proto_lines (fun _ => none)
        [("B", jEnumDef "B" ["x"]), ("A", jEnumDef "A" ["y"]), ("C", jEnumDef "C" ["z"])] =
      .ok (headerLines ++
        ["enum A \x7b", "  A_UNSPECIFIED = 0;", "  A_Y = 1;", "\x7d", "",
         "enum B \x7b", "  B_UNSPECIFIED = 0;", "  B_X = 1;", "\x7d", "",
         "enum C \x7b", "  C_UNSPECIFIED = 0;", "  C_Z = 1;", "\x7d", ""] ++
        helperLines) := by
  have hget : ∀ t, dictGet t defs1 = dictGet t defs2 :=
    fun t => dictGet_perm t hperm hnd
  refine ⟨?_, sortedKeys_perm_eq hperm, by rfl⟩
  rw [generate_proto_from_pydantic, generate_proto_from_pydantic,
    generate_proto_lines, generate_proto_lines, sortedKeys_perm_eq hperm,
    emit_entries_congr table hget (sortedKeys defs2) []]

/-- Witness for C5: a two-definition schema presented in both orders. -/
theorem claim_C5_witness :
    generate_proto_from_pydantic (fun _ => none)
        [("B", jEnumDef "B" ["x"]), ("A", jEnumDef "A" ["y"])] =
      generate_proto_from_pydantic (fun _ => none)
        [("A", jEnumDef "A" ["y"]), ("B", jEnumDef "B" ["x"])] :=
  (claim_C5 (fun _ => none)
    [("B", jEnumDef "B" ["x"]), ("A", jEnumDef "A" ["y"])]
    [("A", jEnumDef "A" ["y"]), ("B", jEnumDef "B" ["x"])]
    (by exact List.Perm.swap _ _ _) (by decide)).1

/-! ## C7: fatal errors — title mismatch and unsupported shapes -/

theorem except_bind_error_of_error {α β : Type} {x : Except String α}
    {f : α → Except String β} (hx : ∃ e, x = .error e) :
    ∃ e, (x >>= f) = .error e := by
  obtain ⟨e, he⟩ := hx
  exact ⟨e, by rw [he]; rfl⟩

theorem except_bind_error_of_all {α β : Type} {x : Except String α}
    {f : α → Except String β} (hf : ∀ a, ∃ e, f a = .error e) :
    ∃ e, (x >>= f) = .error e := by
  cases x with
  | error e => exact ⟨e, rfl⟩
  | ok a => simpa using hf a

theorem except_bind_eq_ok {α β : Type} {x : Except String α}
    {f : α → Except String β} {b : β} :
    (x >>= f) = .ok b ↔ ∃ a, x = .ok a ∧ f a = .ok b := by
  cases x <;> simp

theorem dictGet_of_mem_nodup {α : Type} {k : String} {v : α} :
    ∀ {l : List (String × α)}, (k, v) ∈ l → (l.map Prod.fst).Nodup →
      dictGet k l = some v := by
  intro l
  induction l with
  | nil => intro h _; simp at h
  | cons x t ih =>
    intro hmem hnd
    obtain ⟨x1, x2⟩ := x
    simp only [List.map_cons, List.nodup_cons] at hnd
    rcases List.mem_cons.mp hmem with heq | htail
    · injection heq with e1 e2
      subst e1
      subst e2
      simp [dictGet]
    · by_cases hx : x1 = k
      · exact absurd (by
          rw [hx]
          exact List.mem_map_of_mem Prod.fst htail) hnd.1
      · simp only [dictGet, show (x1 == k) = false from by simp [hx],
          Bool.false_eq_true, if_false]
        exact ih htail hnd.2

/-- The title-mismatch check of `emit_proto_entry`. -/
theorem emit_proto_entry_mismatch (table : String → Option (List String)) (d : Deferred)
    (defs : List (String × JVal)) (k t' : String) (df : JVal)
    (hget : dictGet k defs = some df) (ht : df.title? = some t') (hne : t' ≠ k) :
    emit_proto_entry table d defs ("#/definitions/" ++ k) =
      .error ("ValueError: title mismatch: " ++ t') := by
  rw [emit_proto_entry]
  rw [if_neg (by simp [pyStartsWith_append])]
  simp only [drop_definitions_marker, hget, orKeyError, except_bind_ok, ht]
  rw [if_pos (by simp [hne])]

theorem emit_prop_lines_error_of_unclassifiable (nm : String) (bad : JVal)
    (h1 : is_ref bad = false) (h2 : is_primitive_type bad = false)
    (h3 : is_custom_type bad = false) (h4 : is_union bad = false)
    (h5 : is_map bad = false) :
    ∀ (l : List (String × JVal)), (nm, bad) ∈ l →
      ∀ (n : Nat) (d : Deferred), ∃ e, emit_prop_lines n d l = .error e := by
  intro l
  induction l with
  | nil => intro h; simp at h
  | cons x rest ih =>
    intro hmem n d
    rcases List.mem_cons.mp hmem with heq | htail
    · obtain ⟨x1, x2⟩ := x
      injection heq with e1 e2
      subst e1
      subst e2
      exact ⟨"ValueError: unexpected type",
        by rw [emit_prop_lines]; simp [h1, h2, h3, h4, h5]⟩
    · obtain ⟨x1, x2⟩ := x
      rw [emit_prop_lines]
      by_cases b1 : is_ref x2
      · simp only [b1, if_true]
        apply except_bind_error_of_all
        intro pt
        apply except_bind_error_of_error (ih htail (n + 1) d)
      · simp only [b1, Bool.false_eq_true, if_false]
        by_cases b2 : is_primitive_type x2
        · simp only [b2, if_true]
          apply except_bind_error_of_all
          intro pt
          by_cases bt : is_tuple x2
          · simp only [bt, if_true]
            apply except_bind_error_of_all
            intro mn
            apply except_bind_error_of_all
            intro its
            apply except_bind_error_of_all
            intro y
            exact except_bind_error_of_error (ih htail (n + 1) y)
          · simp only [bt, Bool.false_eq_true, if_false]
            cases hit : x2.items? with
            | none =>
              apply except_bind_error_of_all
              intro y
              exact except_bind_error_of_error (ih htail (n + 1) y)
            | dict aitem =>
              by_cases bat : (is_array x2 && is_tuple aitem) = true
              · simp only [bat, if_true]
                apply except_bind_error_of_all
                intro at1
                apply except_bind_error_of_all
                intro mn
                apply except_bind_error_of_all
                intro its
                apply except_bind_error_of_all
                intro y
                exact except_bind_error_of_error (ih htail (n + 1) y)
              · simp only [bat, Bool.false_eq_true, if_false]
                apply except_bind_error_of_all
                intro y
                exact except_bind_error_of_error (ih htail (n + 1) y)
            | list lst =>
              apply except_bind_error_of_all
              intro y
              exact except_bind_error_of_error (ih htail (n + 1) y)
        · simp only [b2, Bool.false_eq_true, if_false]
          by_cases b3 : is_custom_type x2
          · simp only [b3, if_true]
            apply except_bind_error_of_all
            intro pt
            apply except_bind_error_of_error (ih htail (n + 1) d)
          · simp only [b3, Bool.false_eq_true, if_false]
            by_cases b4 : is_union x2
            · simp only [b4, if_true]
              apply except_bind_error_of_all
              intro alts
              apply except_bind_error_of_all
              intro r
              apply except_bind_error_of_error (ih htail (r.2.2 + 1) r.2.1)
            · simp only [b4, Bool.false_eq_true, if_false]
              by_cases b5 : is_map x2
              · simp only [b5, if_true]
                apply except_bind_error_of_all
                intro ap
                by_cases ba : is_array ap
                · simp only [ba, if_true]
                  cases hit : ap.items? with
                  | none => exact ⟨"KeyError: items", rfl⟩
                  | dict item =>
                    apply except_bind_error_of_all
                    intro tn
                    apply except_bind_error_of_all
                    intro y
                    exact except_bind_error_of_error (ih htail (n + 1) y.2)
                  | list lst => exact ⟨"KeyError: items", rfl⟩
                · simp only [ba, Bool.false_eq_true, if_false]
                  apply except_bind_error_of_all
                  intro tn
                  apply except_bind_error_of_all
                  intro y
                  exact except_bind_error_of_error (ih htail (n + 1) y.2)
              · simp only [b5, Bool.false_eq_true, if_false]
                exact ⟨"ValueError: unexpected type", rfl⟩

theorem enum_properties_perm {table : String → Option (List String)} {msg : JVal}
    {ps : List (String × JVal)} {l : List (String × JVal)}
    (hp : msg.props? = some ps) (h : enum_properties table msg = .ok l) :
    l.Perm ps := by
  rw [enum_properties] at h
  rw [except_bind_eq_ok] at h
  obtain ⟨t, _, h⟩ := h
  rw [except_bind_eq_ok] at h
  obtain ⟨order, _, h⟩ := h
  rw [except_bind_eq_ok] at h
  obtain ⟨ps', hps', h⟩ := h
  rw [hp] at hps'
  simp only [orKeyError, Except.ok.injEq] at hps'
  subst hps'
  simp only [except_pure_eq, Except.ok.injEq] at h
  subst h
  exact List.perm_insertionSort _ ps

theorem emit_entries_error_of_mem (table : String → Option (List String))
    (defs : List (String × JVal)) (k : String)
    (hk : ∀ d, ∃ e, emit_proto_entry table d defs ("#/definitions/" ++ k) = .error e) :
    ∀ (ks : List String), k ∈ ks →
      ∀ d, ∃ e, emit_entries table d defs ks = .error e := by
  intro ks
  induction ks with
  | nil => intro h; simp at h
  | cons k0 kt ih =>
    intro hmem d
    rcases List.mem_cons.mp hmem with heq | htail
    · subst heq
      rw [emit_entries]
      exact except_bind_error_of_error (hk d)
    · rw [emit_entries]
      apply except_bind_error_of_all
      intro r
      apply except_bind_error_of_error (ih htail r.2)

/-- C7: a `$ref`-reachable definition whose stored `title` differs from the
key it is referenced by makes the generation run fail with the
title-mismatch error (the driver dereferences every definition key as a
`#/definitions/` pointer and checks the stored title against it); and a
property of an object definition that matches none of the classifications
(no `$ref`, no `type`, no `anyOf`) also makes the run fail. -/
theorem claim_C7 (table : String → Option (List String))
    (defs : List (String × JVal)) (k : String) (df : JVal)
    (hnd : (defs.map Prod.fst).Nodup) (hmem : (k, df) ∈ defs) :
    (∀ t', df.title? = some t' → t' ≠ k →
      ∃ e, generate_proto_from_pydantic table defs = .error e)
    ∧ (∀ (ps : List (String × JVal)) (nm : String) (bad : JVal),
        df.title? = some k → df.type? = some "object" → df.props? = some ps →
        (nm, bad) ∈ ps →
        bad.ref? = none → bad.type? = none → bad.anyOf? = none →
        ∃ e, generate_proto_from_pydantic table defs = .error e) := by
  have hkey : k ∈ sortedKeys defs := by
    rw [sortedKeys, List.mem_insertionSort]
    exact List.mem_map_of_mem Prod.fst hmem
  have hget : dictGet k defs = some df := dictGet_of_mem_nodup hmem hnd
  have hgen : (∀ d, ∃ e, emit_proto_entry table d defs ("#/definitions/" ++ k) = .error e) →
      ∃ e, generate_proto_from_pydantic table defs = .error e := by
    intro hentry
    rw [generate_proto_from_pydantic]
    apply except_bind_error_of_error
    rw [generate_proto_lines]
    apply except_bind_error_of_error
    exact emit_entries_error_of_mem table defs k hentry (sortedKeys defs) hkey []
  constructor
  · intro t' ht hne
    exact hgen fun d =>
      ⟨_, emit_proto_entry_mismatch table d defs k t' df hget ht hne⟩
  · intro ps nm bad ht htype hps hbadmem hbref hbtype hbany
    have c1 : is_ref bad = false := by simp [is_ref, hbref]
    have c2 : is_primitive_type bad = false := by simp [is_primitive_type, hbtype]
    have c3 : is_custom_type bad = false := by simp [is_custom_type, hbtype]
    have c4 : is_union bad = false := by simp [is_union, hbany]
    have c5 : is_map bad = false := by simp [is_map, hbtype]
    apply hgen
    intro d
    rw [emit_proto_entry]
    rw [if_neg (by simp [pyStartsWith_append])]
    simp only [drop_definitions_marker, hget, orKeyError, except_bind_ok, ht]
    rw [if_neg (by simp)]
    simp only [htype, except_bind_ok]
    rw [if_neg (by simp), if_pos (by simp)]
    rw [emit_proto_message]
    simp only [ht, orKeyError, except_bind_ok]
    cases hep : enum_properties table df with
    | error e => exact ⟨e, by simp [hep]⟩
    | ok ordered =>
      simp only [hep, except_bind_ok]
      apply except_bind_error_of_error
      exact emit_prop_lines_error_of_unclassifiable nm bad c1 c2 c3 c4 c5 ordered
        ((enum_properties_perm hps hep).mem_iff.mpr hbadmem) 1 d

/-- Witness for C7: a definition stored under key `Foo` with title `Bar`
fails the run; an unclassifiable property fails the run. -/
theorem claim_C7_witness :
    (∃ e, generate_proto_from_pydantic (fun _ => none)
        [("Foo", jEnumDef "Bar" ["x"])] = .error e)
    ∧ (∃ e, generate_proto_from_pydantic (fun t => if t = "Obj" then some [] else none)
        [("Obj", jObjectDef "Obj"
          [("weird", JVal.mk none none none .none none none none none none none)])] =
        .error e) := by
  constructor
  · exact (claim_C7 (fun _ => none) [("Foo", jEnumDef "Bar" ["x"])] "Foo"
      (jEnumDef "Bar" ["x"]) (by decide) (by simp)).1 "Bar" rfl (by decide)
  · exact (claim_C7 (fun t => if t = "Obj" then some [] else none)
      [("Obj", jObjectDef "Obj"
        [("weird", JVal.mk none none none .none none none none none none none)])] "Obj"
      (jObjectDef "Obj"
        [("weird", JVal.mk none none none .none none none none none none none)])
      (by decide) (by simp)).2
      [("weird", JVal.mk none none none .none none none none none none none)]
      "weird" (JVal.mk none none none .none none none none none none none)
      rfl rfl rfl (by simp) rfl rfl rfl

end CapaProto
